import Mathlib

/-
Verification of the grid simulation and AI pathfinding engine of the snake
game (snake_game.py).  Machine integers of the source are modelled as `Int`
(coordinates, which may go negative when a snake leaves the grid) and `Nat`
(scores, timestamps).  The pygame random calls are modelled by an explicit
`Rng` record of drawn values; the unbounded rejection-sampling loops of
`spawn_food` / `spawn_power_up` are modelled with a fuel bound, returning
`none` when the fuel is exhausted (the source would loop forever in that
case), so the fallible tick function `Game.update` returns an `Option`.
The BFS `while queue:` loop is modelled with a fuel of `bfsFuel = 1201`
iterations; each iteration strictly decreases `bfsMeasure` (proved below),
which is at most 1201 at the initial state, so the fuel never runs out and
the fuelled function computes exactly what the source loop computes.
-/

-- Constants of the source (WINDOW_WIDTH = 800, WINDOW_HEIGHT = 600,
-- GRID_SIZE = 20, GRID_WIDTH = 800 // 20 = 40, GRID_HEIGHT = 600 // 20 = 30).
def WINDOW_WIDTH : Int := 800

def WINDOW_HEIGHT : Int := 600

def GRID_SIZE : Int := 20

def GRID_WIDTH : Int := WINDOW_WIDTH / GRID_SIZE

def GRID_HEIGHT : Int := WINDOW_HEIGHT / GRID_SIZE

/-- A grid cell, the `(x, y)` integer pair of the source. -/
abbrev Cell : Type := Int × Int

/-- The `Direction` enum; enumeration order UP, DOWN, LEFT, RIGHT. -/
inductive Direction where
  | UP
  | DOWN
  | LEFT
  | RIGHT
deriving DecidableEq

/-- The unit delta of each direction (the enum value in the source). -/
def Direction.delta : Direction → Cell
  | .UP => (0, -1)
  | .DOWN => (0, 1)
  | .LEFT => (-1, 0)
  | .RIGHT => (1, 0)

/-- `for direction in Direction:` iterates in enumeration order. -/
def dirList : List Direction := [.UP, .DOWN, .LEFT, .RIGHT]

/-- Adding a direction's delta to a cell. -/
def stepCell (c : Cell) (d : Direction) : Cell :=
  (c.1 + d.delta.1, c.2 + d.delta.2)

/-- `0 <= x < GRID_WIDTH and 0 <= y < GRID_HEIGHT`. -/
def inBounds (c : Cell) : Bool :=
  decide (0 ≤ c.1 ∧ c.1 < GRID_WIDTH ∧ 0 ≤ c.2 ∧ c.2 < GRID_HEIGHT)

/-- The `PowerUpType` enum. -/
inductive PowerUpType where
  | SPEED_BOOST
  | SLOW_DOWN
  | DOUBLE_POINTS
  | INVINCIBILITY
deriving DecidableEq

/-- A power-up on the grid (`PowerUp.__init__`; the constant duration and the
colour lookup are presentation data and carry no simulation content). -/
structure PowerUp where
  x : Int
  y : Int
  type : PowerUpType
deriving DecidableEq

/-- The `Snake` entity.  `body` is head-first, as the deque in the source.
`power_ups` is the dict mapping an active power-up type to its activation
timestamp. -/
structure Snake where
  body : List Cell
  direction : Direction
  score : Nat
  is_ai : Bool
  alive : Bool
  power_ups : PowerUpType → Option Nat

/-- `self.body[0]`; the source would raise on an empty deque, theorems about
states with an empty body always carry a nonemptiness hypothesis. -/
def Snake.headCell (s : Snake) : Cell := s.body.headD (0, 0)

/-- `Snake.move`: prepend `head + direction.value`; pop the tail unless
growing. -/
def Snake.move (s : Snake) (grow : Bool) : Snake :=
  { s with body :=
      let nh := stepCell s.headCell s.direction
      if grow then nh :: s.body else (nh :: s.body).dropLast }

/-- `Snake.grow`: append a duplicate of the tail cell. -/
def Snake.grow (s : Snake) : Snake :=
  { s with body := s.body ++ [s.body.getLastD (0, 0)] }

/-- `Snake.check_collision`: wall, self (head against `body[1:]`) or
obstacle collision. -/
def Snake.check_collision (s : Snake) (obstacles : List Cell) : Bool :=
  !(inBounds s.headCell) || decide (s.headCell ∈ s.body.tail) ||
    decide (s.headCell ∈ obstacles)

/-- A neighbour cell is passable for `Snake.bfs_path` when it is in bounds,
not an obstacle and not a cell of the searching snake's own body. -/
def freeCell (body obstacles : List Cell) (c : Cell) : Bool :=
  inBounds c && !(decide (c ∈ obstacles)) && !(decide (c ∈ body))

/-- One direction case of the neighbour loop of `Snake.bfs_path`: if the
neighbour is unvisited and passable, mark it visited and append it (with its
extended path) to the queue. -/
def expandDir (free : Cell → Bool) (c : Cell) (p : List Cell)
    (st : List (Cell × List Cell) × List Cell) (d : Direction) :
    List (Cell × List Cell) × List Cell :=
  let n := stepCell c d
  if !(decide (n ∈ st.2)) && free n then (st.1 ++ [(n, p ++ [n])], n :: st.2)
  else st

/-- The `while queue:` loop of `Snake.bfs_path`, with fuel.  The state is the
FIFO queue of `(cell, path)` pairs and the visited set (a list used only
through membership). -/
def bfsAux (free : Cell → Bool) (goal : Cell) :
    Nat → List (Cell × List Cell) → List Cell → Option (List Cell)
  | _, [], _ => none
  | 0, _ :: _, _ => none
  | Nat.succ fuel, (c, p) :: rest, visited =>
      if c = goal then some p
      else
        let st := dirList.foldl (expandDir free c p) (rest, visited)
        bfsAux free goal fuel st.1 st.2

/-- Fuel exceeding the largest possible number of loop iterations
(1200 in-bounds cells plus a possibly out-of-bounds start). -/
def bfsFuel : Nat := 1201

/-- `Snake.bfs_path(start, goal, obstacles)`, with `body` standing for
`self.body`. -/
def bfs_path (start goal : Cell) (body obstacles : List Cell) :
    Option (List Cell) :=
  bfsAux (freeCell body obstacles) goal bfsFuel [(start, [start])] [start]

/-- `Snake.ai_move`: set the direction from the delta between `path[1]` and
the head; keep the current direction when no path (or a trivial path)
exists. -/
def Snake.ai_move (s : Snake) (food : Cell) (obstacles : List Cell) : Snake :=
  if !s.is_ai then s
  else
    match bfs_path s.headCell food s.body obstacles with
    | some (_ :: nxt :: _) =>
        let dx := nxt.1 - s.headCell.1
        let dy := nxt.2 - s.headCell.2
        if dx = 1 then { s with direction := .RIGHT }
        else if dx = -1 then { s with direction := .LEFT }
        else if dy = 1 then { s with direction := .DOWN }
        else if dy = -1 then { s with direction := .UP }
        else s
    | _ => s

/-- The part of the `Game` state the simulation tick reads and writes. -/
structure GameState where
  player : Snake
  ai_snake : Option Snake
  food : Cell
  power_up : Option PowerUp
  obstacles : List Cell

/-- The random values a tick may draw: the stream of `random.randint` cell
draws for `spawn_food`, the `random.random() < 0.2` roll, the
`random.random() < 0.3` roll, the cell draws and the `random.choice` type for
`spawn_power_up`, and `pygame.time.get_ticks()`. -/
structure Rng where
  foodSeq : Nat → Cell
  puRoll : Bool
  puChance : Bool
  puSeq : Nat → Cell
  puType : PowerUpType
  now : Nat

/-- Rejection sampling from a stream: first accepted draw, `none` when the
fuel runs out (the source loops forever when no cell is acceptable). -/
def findFreeCell (ok : Cell → Bool) (seq : Nat → Cell) : Nat → Option Cell
  | 0 => none
  | Nat.succ n =>
      if ok (seq 0) then some (seq 0)
      else findFreeCell ok (fun k => seq (k + 1)) n

def spawnFuel : Nat := 1201

/-- The acceptance test of `Game.spawn_food`: not in the player's body, not
in the AI snake's body when an AI snake exists, not an obstacle. -/
def foodOk (playerBody : List Cell) (ai : Option Snake) (obstacles : List Cell)
    (c : Cell) : Bool :=
  !(decide (c ∈ playerBody)) &&
    (match ai with
     | none => true
     | some a => !(decide (c ∈ a.body))) &&
    !(decide (c ∈ obstacles))

/-- `Game.spawn_food`. -/
def Game.spawn_food (playerBody : List Cell) (ai : Option Snake)
    (obstacles : List Cell) (rng : Rng) : Option Cell :=
  findFreeCell (foodOk playerBody ai obstacles) rng.foodSeq spawnFuel

/-- The acceptance test of `Game.spawn_power_up`: not in the player's body,
not the food cell, not an obstacle (the AI snake's body is not consulted in
the source). -/
def powerUpOk (playerBody : List Cell) (food : Cell) (obstacles : List Cell)
    (c : Cell) : Bool :=
  !(decide (c ∈ playerBody)) && !(decide (c = food)) &&
    !(decide (c ∈ obstacles))

/-- `Game.spawn_power_up`: with the 30% roll, sample an acceptable cell and
place a power-up of the drawn type, else leave the current power-up field
unchanged.  Outer `none` models the unbounded-loop failure. -/
def Game.spawn_power_up (playerBody : List Cell) (food : Cell)
    (obstacles : List Cell) (rng : Rng) (old : Option PowerUp) :
    Option (Option PowerUp) :=
  if rng.puChance then
    match findFreeCell (powerUpOk playerBody food obstacles) rng.puSeq
        spawnFuel with
    | none => none
    | some c => some (some { x := c.1, y := c.2, type := rng.puType })
  else some old

/-- The `if player_will_eat:` block of `Game.update`: award points (doubled
under DOUBLE_POINTS), respawn food against the post-move bodies, then with
the 20% roll attempt a power-up spawn against the new food. -/
def Game.eatPhase (pwe : Bool) (player1 : Snake) (ai1 : Option Snake)
    (food : Cell) (oldPu : Option PowerUp) (obstacles : List Cell)
    (rng : Rng) : Option (Snake × Cell × Option PowerUp) :=
  if pwe then
    let points := if (player1.power_ups PowerUpType.DOUBLE_POINTS).isSome
      then 20 else 10
    let player2 := { player1 with score := player1.score + points }
    match Game.spawn_food player2.body ai1 obstacles rng with
    | none => none
    | some f =>
        if rng.puRoll then
          match Game.spawn_power_up player2.body f obstacles rng oldPu with
          | none => none
          | some pu => some (player2, f, pu)
        else some (player2, f, oldPu)
  else some (player1, food, oldPu)

/-- The `if ai_will_eat:` block of `Game.update`: award the AI 10 points and
respawn food only when the player did not also eat this tick. -/
def Game.aiEatPhase (awe pwe : Bool) (player2 : Snake) (ai1 : Option Snake)
    (food1 : Cell) (obstacles : List Cell) (rng : Rng) :
    Option (Option Snake × Cell) :=
  if awe then
    match ai1 with
    | some a1 =>
        let a2 := { a1 with score := a1.score + 10 }
        if pwe then some (some a2, food1)
        else
          match Game.spawn_food player2.body (some a2) obstacles rng with
          | none => none
          | some f2 => some (some a2, f2)
    | none => some (none, food1)
  else some (ai1, food1)

/-- The power-up pickup block of `Game.update`: if the player's head is on
the power-up, record its type with the current tick time and clear the
power-up field. -/
def Game.pickupPhase (player2 : Snake) (pu1 : Option PowerUp) (now : Nat) :
    Snake × Option PowerUp :=
  match pu1 with
  | some pu =>
      if player2.headCell = (pu.x, pu.y) then
        ({ player2 with power_ups :=
            fun k => if k = pu.type then some now else player2.power_ups k },
          none)
      else (player2, pu1)
  | none => (player2, none)

/-- The collision block of `Game.update`: a player collision kills the player
and ends the round at once (the AI check is skipped); otherwise a colliding
living AI snake is marked dead and the round continues. -/
def Game.collisionPhase (player3 : Snake) (ai2 : Option Snake) (food2 : Cell)
    (pu2 : Option PowerUp) (obstacles : List Cell) : GameState × Bool :=
  if player3.check_collision obstacles then
    ({ player := { player3 with alive := false }, ai_snake := ai2,
       food := food2, power_up := pu2, obstacles := obstacles }, false)
  else
    let ai3 := match ai2 with
      | some a =>
          if a.alive && a.check_collision obstacles then
            some { a with alive := false }
          else some a
      | none => none
    ({ player := player3, ai_snake := ai3, food := food2, power_up := pu2,
       obstacles := obstacles }, true)

/-- `player_will_eat`: the player's head is on the food before moving. -/
def updPwe (g : GameState) : Bool := decide (g.player.headCell = g.food)

/-- `ai_will_eat`: the AI snake exists, is alive, and its head is on the
food before moving. -/
def updAwe (g : GameState) : Bool :=
  match g.ai_snake with
  | some a => a.alive && decide (a.headCell = g.food)
  | none => false

/-- The player after its move (growing when about to eat). -/
def updPlayer1 (g : GameState) : Snake := g.player.move (updPwe g)

/-- The AI snake after its BFS decision and move (dead snakes do not
move). -/
def updAi1 (g : GameState) : Option Snake :=
  match g.ai_snake with
  | none => none
  | some a =>
      if a.alive then some ((a.ai_move g.food g.obstacles).move (updAwe g))
      else some a

/-- `Game.update`: snapshot the will-eat flags before moving, move the player
and (after its BFS decision) the living AI snake, process eating, power-up
pickup and collisions.  The returned `Bool` is the source's return value
(`False` ends the round). -/
def Game.update (g : GameState) (rng : Rng) : Option (GameState × Bool) :=
  match Game.eatPhase (updPwe g) (updPlayer1 g) (updAi1 g) g.food g.power_up
      g.obstacles rng with
  | none => none
  | some (player2, food1, pu1) =>
      match Game.aiEatPhase (updAwe g) (updPwe g) player2 (updAi1 g) food1
          g.obstacles rng with
      | none => none
      | some (ai2, food2) =>
          some (Game.collisionPhase (Game.pickupPhase player2 pu1 rng.now).1
            ai2 food2 (Game.pickupPhase player2 pu1 rng.now).2 g.obstacles)

/-- The event kinds `Game.handle_input` distinguishes. -/
inductive GEvent where
  | quit
  | keyUp
  | keyDown
  | keyLeft
  | keyRight
  | keyEsc
  | other
deriving DecidableEq

/-- `Game.handle_input` on one tick's pending event list: returns the final
player direction, the `running` flag and the return value.  A reversal
request is skipped (no elif branch fires); QUIT clears `running` and returns
`False`; ESC returns `False`. -/
def Game.handle_input : Direction → List GEvent → Direction × Bool × Bool
  | d, [] => (d, true, true)
  | d, e :: rest =>
      match e with
      | .quit => (d, false, false)
      | .keyEsc => (d, true, false)
      | .keyUp => Game.handle_input (if d ≠ .DOWN then .UP else d) rest
      | .keyDown => Game.handle_input (if d ≠ .UP then .DOWN else d) rest
      | .keyLeft => Game.handle_input (if d ≠ .RIGHT then .LEFT else d) rest
      | .keyRight => Game.handle_input (if d ≠ .LEFT then .RIGHT else d) rest
      | .other => Game.handle_input d rest

/-- The direction opposite to a given one (a 180° reversal). -/
def Direction.opposite : Direction → Direction
  | .UP => .DOWN
  | .DOWN => .UP
  | .LEFT => .RIGHT
  | .RIGHT => .LEFT

/-- Erase the player's power-up mapping (used to compare two tick results up
to that mapping). -/
def stripPU (g : GameState) : GameState :=
  { g with player := { g.player with power_ups := fun _ => none } }

-- Specification-side notions used to state and prove BFS correctness.

/-- Index of a direction in the enumeration order UP, DOWN, LEFT, RIGHT. -/
def dIdx : Direction → Nat
  | .UP => 0
  | .DOWN => 1
  | .LEFT => 2
  | .RIGHT => 3

/-- Accumulating numeric key of a direction word: base-5 digits `dIdx + 1`.
Keys order words first by length, then lexicographically in enumeration
order, which matches the order in which BFS first reaches paths. -/
def keyFrom (n : Nat) (w : List Direction) : Nat :=
  w.foldl (fun m d => m * 5 + (dIdx d + 1)) n

def wordKey (w : List Direction) : Nat := keyFrom 0 w

/-- A direction word is valid from a cell when every cell it enters is
passable. -/
def validWord (free : Cell → Bool) : Cell → List Direction → Bool
  | _, [] => true
  | c, d :: w => free (stepCell c d) && validWord free (stepCell c d) w

/-- End cell of a direction word. -/
def wEnd : Cell → List Direction → Cell
  | c, [] => c
  | c, d :: w => wEnd (stepCell c d) w

/-- The cell sequence traced by a direction word, start included. -/
def follow : Cell → List Direction → List Cell
  | c, [] => [c]
  | c, d :: w => c :: follow (stepCell c d) w

/-- 4-adjacency. -/
def adjacentB (a b : Cell) : Bool :=
  decide (stepCell a Direction.UP = b ∨ stepCell a Direction.DOWN = b ∨
    stepCell a Direction.LEFT = b ∨ stepCell a Direction.RIGHT = b)

/-- `pathFrom free goal c rest`: `c :: rest` is a chain of 4-adjacent cells
ending at `goal` whose cells after `c` are all passable. -/
def pathFrom (free : Cell → Bool) (goal : Cell) : Cell → List Cell → Bool
  | c, [] => decide (c = goal)
  | c, n :: rest => adjacentB c n && free n && pathFrom free goal n rest

/-- A valid path from `start` to `goal`: starts at `start`, consecutive cells
4-adjacent, every cell after the first passable, last cell `goal`. -/
def isPathB (free : Cell → Bool) (start goal : Cell) : List Cell → Bool
  | [] => false
  | c :: rest => decide (c = start) && pathFrom free goal c rest

/-- Direction index of one step between cells (4 when not a unit step). -/
def stepIdxN (a b : Cell) : Nat :=
  if b = stepCell a .UP then 0
  else if b = stepCell a .DOWN then 1
  else if b = stepCell a .LEFT then 2
  else if b = stepCell a .RIGHT then 3
  else 4

/-- The direction indices of the consecutive steps of a cell path. -/
def dirWord : List Cell → List Nat
  | a :: b :: rest => stepIdxN a b :: dirWord (b :: rest)
  | _ => []

/-- Lexicographic comparison of direction-index words. -/
def lexLE : List Nat → List Nat → Bool
  | [], _ => true
  | _ :: _, [] => false
  | a :: as, b :: bs => decide (a < b) || (decide (a = b) && lexLE as bs)

/-- The directions whose neighbour the expansion of `c` enqueues, given the
visited set `V` before the expansion. -/
def newDirs (free : Cell → Bool) (V : List Cell) (c : Cell) :
    List Direction :=
  dirList.filter (fun d => !(decide (stepCell c d ∈ V)) && free (stepCell c d))

/-- All 1200 in-bounds cells. -/
def allCells : List Cell :=
  (List.range GRID_WIDTH.toNat).flatMap
    (fun x => (List.range GRID_HEIGHT.toNat).map
      (fun y => (Int.ofNat x, Int.ofNat y)))

def cellCap : Nat := GRID_WIDTH.toNat * GRID_HEIGHT.toNat + 1

/-- Strictly decreasing measure of the BFS loop. -/
def bfsMeasure (q : List (Cell × List Cell)) (V : List Cell) : Nat :=
  (cellCap - V.length) + q.length

/-- What BFS maintains for each queue entry: its stored path is the trace of
a valid word reaching its cell, and that word is key-minimal among all valid
words reaching the cell. -/
def EntryInv (free : Cell → Bool) (start : Cell) (e : Cell × List Cell)
    (w : List Direction) : Prop :=
  validWord free start w = true ∧ wEnd start w = e.1 ∧ e.2 = follow start w ∧
    ∀ w', validWord free start w' = true → wEnd start w' = e.1 →
      wordKey w ≤ wordKey w'

/-- The BFS loop invariant, with `ws` the (ghost) direction words of the
queue entries in order. -/
structure BfsInv (free : Cell → Bool) (start goal : Cell)
    (q : List (Cell × List Cell)) (V : List Cell)
    (ws : List (List Direction)) : Prop where
  entries : List.Forall₂ (EntryInv free start) q ws
  sorted : List.Pairwise (fun a b => wordKey a < wordKey b) ws
  headBound : ∀ w ∈ ws, ∀ w₀, ws.head? = some w₀ → wordKey w ≤ 5 * wordKey w₀
  startMem : start ∈ V
  cellsMem : ∀ e ∈ q, e.1 ∈ V
  memFree : ∀ z ∈ V, z = start ∨ free z = true
  closedDone : ∀ z ∈ V, (∀ e ∈ q, e.1 ≠ z) →
    ∀ d : Direction, free (stepCell z d) = true → stepCell z d ∈ V
  goalPending : goal ∈ V → ∃ e ∈ q, e.1 = goal
  nodupV : V.Nodup

/-- Correctness of a BFS result: a returned path traces the key-minimal
valid word reaching the goal; `none` means no valid word reaches it. -/
def BfsOut (free : Cell → Bool) (start goal : Cell) :
    Option (List Cell) → Prop
  | some p => ∃ w, validWord free start w = true ∧ wEnd start w = goal ∧
      p = follow start w ∧
      ∀ w', validWord free start w' = true → wEnd start w' = goal →
        wordKey w ≤ wordKey w'
  | none => ∀ w', validWord free start w' = true → wEnd start w' ≠ goal

-- Concrete states used in witnesses and counterexamples.

/-- A snake with empty power-up mapping. -/
def mkSnake (body : List Cell) (d : Direction) (ai : Bool) : Snake :=
  { body := body, direction := d, score := 0, is_ai := ai, alive := true,
    power_ups := fun _ => none }

/-- An rng whose cell draws are all the given cell and whose rolls fail. -/
def rngConst (c : Cell) : Rng :=
  { foodSeq := fun _ => c, puRoll := false, puChance := false,
    puSeq := fun _ => c, puType := .SPEED_BOOST, now := 0 }

/-- A player one cell left of the food, about to step onto it. -/
def gC2 : GameState :=
  { player := mkSnake [(5, 5)] .RIGHT false, ai_snake := none,
    food := (6, 5), power_up := none, obstacles := [] }

def rngC2 : Rng := rngConst (20, 20)

/-- Player and AI snake with both heads on the food cell. -/
def gC3 : GameState :=
  { player := mkSnake [(5, 5)] .RIGHT false,
    ai_snake := some (mkSnake [(5, 5)] .RIGHT true),
    food := (5, 5), power_up := none, obstacles := [] }

/-- Player eating at (3,2) while the AI snake at (3,4) walks toward the
food; the power-up draw lands on the AI snake's next head cell (3,3). -/
def gC8 : GameState :=
  { player := mkSnake [(3, 2)] .RIGHT false,
    ai_snake := some (mkSnake [(3, 4)] .RIGHT true),
    food := (3, 2), power_up := none, obstacles := [] }

def rngC8 : Rng :=
  { foodSeq := fun _ => (30, 20), puRoll := true, puChance := true,
    puSeq := fun _ => (3, 3), puType := .INVINCIBILITY, now := 5 }

/-- A player with an already active DOUBLE_POINTS power-up. -/
def gC9player : Snake :=
  { body := [(5, 5)], direction := .RIGHT, score := 0, is_ai := false,
    alive := true,
    power_ups := fun k =>
      if k = PowerUpType.DOUBLE_POINTS then some 3 else none }

def gC9 : GameState :=
  { player := gC9player, ai_snake := none, food := (30, 20),
    power_up := none, obstacles := [] }

/-- A player at the left wall about to run into it. -/
def gC10 : GameState :=
  { player := mkSnake [(0, 5)] .LEFT false, ai_snake := none,
    food := (30, 20), power_up := none, obstacles := [] }

/-- An INVINCIBILITY entry, used to compare two runs differing only in
power-up entries. -/
def puInv : PowerUpType → Option Nat :=
  fun k => if k = PowerUpType.INVINCIBILITY then some 1 else none

/-- An AI snake heading LEFT whose BFS decision will turn it RIGHT. -/
def C7snake : Snake := mkSnake [(5, 5)] .LEFT true

/-- The food invariant that actually holds after a tick: the food is not an
obstacle cell and not a cell of a living snake's body other than its head
(the head may sit on the food for one tick, just before eating it). -/
def foodInvB (g : GameState) : Bool :=
  !(decide (g.food ∈ g.obstacles)) &&
    (!g.player.alive || !(decide (g.food ∈ g.player.body.tail))) &&
    (match g.ai_snake with
     | none => true
     | some a => !a.alive || !(decide (g.food ∈ a.body.tail)))

-- Basic lemmas.

theorem stepCell_inj (c : Cell) {d₁ d₂ : Direction}
    (h : stepCell c d₁ = stepCell c d₂) : d₁ = d₂ := by
  cases d₁ <;> cases d₂ <;> first
    | rfl
    | (simp [stepCell, Direction.delta, Prod.ext_iff] at h
       try omega)

theorem freeCell_inBounds {body obstacles : List Cell} {c : Cell}
    (h : freeCell body obstacles c = true) : inBounds c = true := by
  simp [freeCell] at h
  exact h.1.1

theorem keyFrom_eq (w : List Direction) :
    ∀ n, keyFrom n w = n * 5 ^ w.length + wordKey w := by
  induction w with
  | nil => intro n; simp [keyFrom, wordKey]
  | cons d w ih =>
      intro n
      show keyFrom (n * 5 + (dIdx d + 1)) w = _
      rw [ih]
      have h2 : wordKey (d :: w) = (dIdx d + 1) * 5 ^ w.length + wordKey w := by
        show keyFrom (0 * 5 + (dIdx d + 1)) w = _
        rw [ih]
        ring
      rw [h2, List.length_cons, pow_succ]
      ring

theorem wordKey_cons (d : Direction) (w : List Direction) :
    wordKey (d :: w) = (dIdx d + 1) * 5 ^ w.length + wordKey w := by
  show keyFrom (0 * 5 + (dIdx d + 1)) w = _
  rw [keyFrom_eq]
  ring

theorem wordKey_append (u v : List Direction) :
    wordKey (u ++ v) = wordKey u * 5 ^ v.length + wordKey v := by
  show keyFrom 0 (u ++ v) = _
  unfold keyFrom
  rw [List.foldl_append]
  exact keyFrom_eq v (wordKey u)

theorem wordKey_snoc (u : List Direction) (d : Direction) :
    wordKey (u ++ [d]) = 5 * wordKey u + (dIdx d + 1) := by
  rw [wordKey_append]
  have h1 : wordKey [d] = dIdx d + 1 := by
    rw [wordKey_cons]
    simp [wordKey, keyFrom]
  rw [h1]
  simp [pow_one]
  ring

theorem dIdx_le (d : Direction) : dIdx d ≤ 3 := by
  cases d <;> simp [dIdx]

theorem wordKey_lt_pow (w : List Direction) : wordKey w < 5 ^ w.length := by
  induction w with
  | nil => simp [wordKey, keyFrom]
  | cons d w ih =>
      rw [wordKey_cons, List.length_cons, pow_succ]
      have hd := dIdx_le d
      nlinarith [ih]

theorem pow_le_wordKey {w : List Direction} (h : w ≠ []) :
    5 ^ (w.length - 1) ≤ wordKey w := by
  cases w with
  | nil => exact absurd rfl h
  | cons d w =>
      rw [wordKey_cons]
      simp only [List.length_cons, Nat.add_sub_cancel]
      nlinarith [Nat.zero_le (wordKey w), Nat.zero_le (dIdx d),
        Nat.one_le_pow w.length 5 (by norm_num)]

theorem wordKey_lt_of_length_lt {w₁ w₂ : List Direction}
    (h : w₁.length < w₂.length) : wordKey w₁ < wordKey w₂ := by
  have h1 : wordKey w₁ < 5 ^ w₁.length := wordKey_lt_pow w₁
  have h2 : w₂ ≠ [] := by
    intro he
    rw [he] at h
    simp at h
  have h3 : 5 ^ (w₂.length - 1) ≤ wordKey w₂ := pow_le_wordKey h2
  have h4 : 5 ^ w₁.length ≤ 5 ^ (w₂.length - 1) :=
    Nat.pow_le_pow_right (by norm_num) (by omega)
  omega

theorem length_le_of_wordKey_le {w₁ w₂ : List Direction}
    (h : wordKey w₁ ≤ wordKey w₂) : w₁.length ≤ w₂.length := by
  by_contra hc
  have := wordKey_lt_of_length_lt (show w₂.length < w₁.length by omega)
  omega

theorem wordKey_inj : ∀ {w₁ w₂ : List Direction},
    wordKey w₁ = wordKey w₂ → w₁ = w₂ := by
  intro w₁
  induction w₁ with
  | nil =>
      intro w₂ h
      cases w₂ with
      | nil => rfl
      | cons d w =>
          exfalso
          have := wordKey_lt_of_length_lt
            (show ([] : List Direction).length < (d :: w).length by simp)
          omega
  | cons d₁ w₁ ih =>
      intro w₂ h
      cases w₂ with
      | nil =>
          exfalso
          have := wordKey_lt_of_length_lt
            (show ([] : List Direction).length < (d₁ :: w₁).length by simp)
          omega
      | cons d₂ w₂ =>
          have hlen : w₁.length = w₂.length := by
            have h1 := length_le_of_wordKey_le (le_of_eq h)
            have h2 := length_le_of_wordKey_le (ge_of_eq h)
            simp only [List.length_cons] at h1 h2
            omega
          rw [wordKey_cons, wordKey_cons, ← hlen] at h
          have k1 : wordKey w₁ < 5 ^ w₁.length := wordKey_lt_pow w₁
          have k2 : wordKey w₂ < 5 ^ w₁.length := hlen ▸ wordKey_lt_pow w₂
          have hdd : dIdx d₁ = dIdx d₂ ∧ wordKey w₁ = wordKey w₂ := by
            cases d₁ <;> cases d₂ <;> simp [dIdx] at h ⊢ <;> omega
          obtain ⟨hd, hw⟩ := hdd
          have hde : d₁ = d₂ := by
            cases d₁ <;> cases d₂ <;> simp [dIdx] at hd ⊢
          rw [hde, ih hw]

theorem wordKey_ext_lower {u v : List Direction} (h : v ≠ []) :
    5 * wordKey u + 1 ≤ wordKey (u ++ v) := by
  rw [wordKey_append]
  have h1 : 1 ≤ wordKey v := by
    have h2 := pow_le_wordKey h
    have h3 : (1:ℕ) ≤ 5 ^ (v.length - 1) := Nat.one_le_pow _ _ (by norm_num)
    omega
  have h2 : 5 ≤ 5 ^ v.length := by
    have h3 : 5 ^ 1 ≤ 5 ^ v.length := Nat.pow_le_pow_right (by norm_num)
      (by cases v with
          | nil => exact absurd rfl h
          | cons a l => simp)
    simpa using h3
  nlinarith [Nat.zero_le (wordKey u)]

-- Word and path structure lemmas.

theorem wEnd_append (u v : List Direction) :
    ∀ c, wEnd c (u ++ v) = wEnd (wEnd c u) v := by
  induction u with
  | nil => intro c; rfl
  | cons d u ih => intro c; exact ih (stepCell c d)

theorem validWord_append (free : Cell → Bool) (u v : List Direction) :
    ∀ c, validWord free c (u ++ v) =
      (validWord free c u && validWord free (wEnd c u) v) := by
  induction u with
  | nil => intro c; simp [validWord, wEnd]
  | cons d u ih =>
      intro c
      show (free (stepCell c d) && validWord free (stepCell c d) (u ++ v)) = _
      rw [ih (stepCell c d)]
      show _ = ((free (stepCell c d) && validWord free (stepCell c d) u) &&
        validWord free (wEnd (stepCell c d) u) v)
      cases free (stepCell c d) <;>
        cases validWord free (stepCell c d) u <;> simp

theorem follow_snoc (u : List Direction) (d : Direction) :
    ∀ c, follow c (u ++ [d]) = follow c u ++ [stepCell (wEnd c u) d] := by
  induction u with
  | nil => intro c; rfl
  | cons a u ih =>
      intro c
      show c :: follow (stepCell c a) (u ++ [d]) = _
      rw [ih (stepCell c a)]
      rfl

theorem follow_length (w : List Direction) :
    ∀ c, (follow c w).length = w.length + 1 := by
  induction w with
  | nil => intro c; rfl
  | cons d w ih =>
      intro c
      show (follow (stepCell c d) w).length + 1 = _
      rw [ih (stepCell c d)]
      simp

theorem follow_shape (w : List Direction) (c : Cell) :
    ∃ t, follow c w = c :: t := by
  cases w with
  | nil => exact ⟨[], rfl⟩
  | cons d w => exact ⟨follow (stepCell c d) w, rfl⟩

theorem free_wEnd {free : Cell → Bool} {w : List Direction} {c : Cell}
    (hne : w ≠ []) (hv : validWord free c w = true) :
    free (wEnd c w) = true := by
  rcases List.eq_nil_or_concat w with he | ⟨u, d, he⟩
  · exact absurd he hne
  · subst he
    simp only [List.concat_eq_append] at hv ⊢
    rw [validWord_append] at hv
    rw [wEnd_append]
    simp only [Bool.and_eq_true] at hv
    have h2 := hv.2
    show free (wEnd (wEnd c u) [d]) = true
    simp only [validWord, Bool.and_eq_true] at h2
    exact h2.1

theorem validWord_of_append_left {free : Cell → Bool} {u v : List Direction}
    {c : Cell} (hv : validWord free c (u ++ v) = true) :
    validWord free c u = true := by
  rw [validWord_append] at hv
  simp only [Bool.and_eq_true] at hv
  exact hv.1

-- Characterization of the neighbour-expansion fold.

theorem expand_fold (free : Cell → Bool) (c : Cell) (p : List Cell) :
    ∀ (ds : List Direction), ds.Nodup →
    ∀ (q : List (Cell × List Cell)) (V : List Cell),
    ds.foldl (expandDir free c p) (q, V) =
      (q ++ (ds.filter
          (fun d => !(decide (stepCell c d ∈ V)) && free (stepCell c d))).map
            (fun d => (stepCell c d, p ++ [stepCell c d])),
        ((ds.filter
          (fun d => !(decide (stepCell c d ∈ V)) && free (stepCell c d))).map
            (stepCell c)).reverse ++ V) := by
  intro ds
  induction ds with
  | nil => intro _ q V; simp
  | cons d ds ih =>
      intro hnd q V
      have hd_not : d ∉ ds := (List.nodup_cons.mp hnd).1
      have hnd' : ds.Nodup := (List.nodup_cons.mp hnd).2
      show List.foldl (expandDir free c p) (expandDir free c p (q, V) d) ds = _
      by_cases hc : (!(decide (stepCell c d ∈ V)) && free (stepCell c d)) = true
      · have he : expandDir free c p (q, V) d =
            (q ++ [(stepCell c d, p ++ [stepCell c d])], stepCell c d :: V) := by
          simp only [expandDir]
          rw [if_pos hc]
        rw [he, ih hnd']
        have hfilter : ds.filter
            (fun d' => !(decide (stepCell c d' ∈ stepCell c d :: V)) &&
              free (stepCell c d')) =
            ds.filter
            (fun d' => !(decide (stepCell c d' ∈ V)) && free (stepCell c d')) := by
          apply List.filter_congr
          intro d' hd'
          have hne : stepCell c d' ≠ stepCell c d := by
            intro he2
            exact hd_not (stepCell_inj c he2 ▸ hd')
          simp [List.mem_cons, hne]
        rw [hfilter]
        have hfc : (d :: ds).filter
            (fun d' => !(decide (stepCell c d' ∈ V)) && free (stepCell c d')) =
            d :: ds.filter
            (fun d' => !(decide (stepCell c d' ∈ V)) && free (stepCell c d')) := by
          rw [List.filter_cons, if_pos hc]
        rw [hfc]
        simp [List.append_assoc]
      · have he : expandDir free c p (q, V) d = (q, V) := by
          simp only [expandDir]
          rw [if_neg hc]
        rw [he, ih hnd']
        have hfc : (d :: ds).filter
            (fun d' => !(decide (stepCell c d' ∈ V)) && free (stepCell c d')) =
            ds.filter
            (fun d' => !(decide (stepCell c d' ∈ V)) && free (stepCell c d')) := by
          rw [List.filter_cons, if_neg hc]
        rw [hfc]

theorem dirList_nodup : dirList.Nodup := by decide

theorem expand_dirList (free : Cell → Bool) (c : Cell) (p : List Cell)
    (q : List (Cell × List Cell)) (V : List Cell) :
    dirList.foldl (expandDir free c p) (q, V) =
      (q ++ (newDirs free V c).map
          (fun d => (stepCell c d, p ++ [stepCell c d])),
        ((newDirs free V c).map (stepCell c)).reverse ++ V) :=
  expand_fold free c p dirList dirList_nodup q V

theorem mem_dirList (d : Direction) : d ∈ dirList := by
  cases d <;> decide

theorem mem_newDirs {free : Cell → Bool} {V : List Cell} {c : Cell}
    {d : Direction} :
    d ∈ newDirs free V c ↔ stepCell c d ∉ V ∧ free (stepCell c d) = true := by
  unfold newDirs
  rw [List.mem_filter]
  simp [mem_dirList]

theorem newDirs_nodup (free : Cell → Bool) (V : List Cell) (c : Cell) :
    (newDirs free V c).Nodup :=
  List.Nodup.filter _ dirList_nodup

theorem newDirs_sorted (free : Cell → Bool) (V : List Cell) (c : Cell) :
    (newDirs free V c).Pairwise (fun d₁ d₂ => dIdx d₁ < dIdx d₂) :=
  List.Pairwise.filter _
    (show dirList.Pairwise (fun d₁ d₂ => dIdx d₁ < dIdx d₂) by decide)

theorem mem_expand_visited {free : Cell → Bool} {V : List Cell} {c : Cell}
    {z : Cell} :
    z ∈ ((newDirs free V c).map (stepCell c)).reverse ++ V ↔
      z ∈ V ∨ ∃ d ∈ newDirs free V c, stepCell c d = z := by
  rw [List.mem_append, List.mem_reverse, List.mem_map]
  constructor
  · rintro (⟨d, hd, he⟩ | hv)
    · exact Or.inr ⟨d, hd, he⟩
    · exact Or.inl hv
  · rintro (hv | ⟨d, hd, he⟩)
    · exact Or.inr hv
    · exact Or.inl ⟨d, hd, he⟩

-- Counting: the visited list is bounded by the grid size.

theorem grid_dims : GRID_WIDTH = 40 ∧ GRID_HEIGHT = 30 := by decide

theorem mem_allCells {z : Cell} (h : inBounds z = true) : z ∈ allCells := by
  simp only [inBounds, decide_eq_true_eq] at h
  obtain ⟨h1, h2, h3, h4⟩ := h
  rw [grid_dims.1] at h2
  rw [grid_dims.2] at h4
  have hwn : GRID_WIDTH.toNat = 40 := by decide
  have hhn : GRID_HEIGHT.toNat = 30 := by decide
  have hm : (Int.ofNat z.1.toNat, Int.ofNat z.2.toNat) ∈ allCells := by
    unfold allCells
    rw [hwn, hhn]
    have hy : z.2.toNat ∈ List.range 30 := List.mem_range.mpr (by omega)
    have hx : z.1.toNat ∈ List.range 40 := List.mem_range.mpr (by omega)
    have hin : (Int.ofNat z.1.toNat, Int.ofNat z.2.toNat) ∈
        (List.range 30).map (fun y => (Int.ofNat z.1.toNat, Int.ofNat y)) :=
      List.mem_map.mpr ⟨z.2.toNat, hy, rfl⟩
    exact List.mem_flatMap.mpr ⟨z.1.toNat, hx, hin⟩
  have he : (Int.ofNat z.1.toNat, Int.ofNat z.2.toNat) = z := by
    have e1 : Int.ofNat z.1.toNat = z.1 := Int.toNat_of_nonneg h1
    have e2 : Int.ofNat z.2.toNat = z.2 := Int.toNat_of_nonneg h3
    rw [e1, e2]
  exact he ▸ hm

set_option maxRecDepth 4000 in
theorem allCells_length : allCells.length = 1200 := by
  rw [allCells]
  rfl

theorem length_le_cellCap {V : List Cell} {start : Cell}
    (hnd : V.Nodup) (hmem : ∀ z ∈ V, z = start ∨ inBounds z = true) :
    V.length ≤ cellCap := by
  have hsub : ∀ z ∈ V, z ∈ start :: allCells := by
    intro z hz
    rcases hmem z hz with he | hb
    · exact he ▸ List.mem_cons_self _ _
    · exact List.mem_cons_of_mem _ (mem_allCells hb)
  have h1 : V.length = V.toFinset.card := (List.toFinset_card_of_nodup hnd).symm
  have h2 : V.toFinset ⊆ (start :: allCells).toFinset := by
    intro z hz
    rw [List.mem_toFinset] at hz ⊢
    exact hsub z hz
  have h3 : V.toFinset.card ≤ (start :: allCells).toFinset.card :=
    Finset.card_le_card h2
  have h4 : (start :: allCells).toFinset.card ≤ (start :: allCells).length :=
    List.toFinset_card_le _
  have h5 : (start :: allCells).length = 1201 := by
    rw [List.length_cons, allCells_length]
  have h6 : cellCap = 1201 := by decide
  omega

-- Forall₂ and Pairwise helpers.

theorem forall₂_mem_left {α β : Type} {R : α → β → Prop} :
    ∀ {l₁ : List α} {l₂ : List β}, List.Forall₂ R l₁ l₂ →
      ∀ {a : α}, a ∈ l₁ → ∃ b ∈ l₂, R a b := by
  intro l₁ l₂ h
  induction h with
  | nil => intro a ha; exact absurd ha (List.not_mem_nil _)
  | cons hr _ ih =>
      intro a ha
      rcases List.mem_cons.mp ha with he | hm
      · exact ⟨_, List.mem_cons_self _ _, he ▸ hr⟩
      · obtain ⟨b, hb, hrb⟩ := ih hm
        exact ⟨b, List.mem_cons_of_mem _ hb, hrb⟩

theorem forall₂_append {α β : Type} {R : α → β → Prop} :
    ∀ {l₁ : List α} {l₂ : List β} {u₁ : List α} {u₂ : List β},
      List.Forall₂ R l₁ l₂ → List.Forall₂ R u₁ u₂ →
      List.Forall₂ R (l₁ ++ u₁) (l₂ ++ u₂) := by
  intro l₁ l₂ u₁ u₂ h hu
  induction h with
  | nil => exact hu
  | cons hr _ ih => exact List.Forall₂.cons hr ih

theorem forall₂_map_map {α β γ : Type} {R : β → γ → Prop} {f : α → β}
    {g : α → γ} :
    ∀ {l : List α}, (∀ a ∈ l, R (f a) (g a)) →
      List.Forall₂ R (l.map f) (l.map g) := by
  intro l
  induction l with
  | nil => intro _; exact List.Forall₂.nil
  | cons a l ih =>
      intro h
      exact List.Forall₂.cons (h a (List.mem_cons_self _ _))
        (ih fun b hb => h b (List.mem_cons_of_mem _ hb))

theorem forall₂_length {α β : Type} {R : α → β → Prop} :
    ∀ {l₁ : List α} {l₂ : List β}, List.Forall₂ R l₁ l₂ →
      l₁.length = l₂.length := by
  intro l₁ l₂ h
  induction h with
  | nil => rfl
  | cons _ _ ih => simp [ih]

theorem pairwise_head_le {w₀ : List Direction} {wt : List (List Direction)}
    (h : List.Pairwise (fun a b => wordKey a < wordKey b) (w₀ :: wt)) :
    ∀ w ∈ w₀ :: wt, wordKey w₀ ≤ wordKey w := by
  intro w hw
  rcases List.mem_cons.mp hw with he | hm
  · exact le_of_eq (he ▸ rfl)
  · exact le_of_lt ((List.pairwise_cons.mp h).1 w hm)

-- The BFS frontier lemma: any valid word out of the visited set passes
-- through a queued cell.

theorem bfs_frontier {free : Cell → Bool} {start goal : Cell}
    {q : List (Cell × List Cell)} {V : List Cell}
    {ws : List (List Direction)}
    (inv : BfsInv free start goal q V ws) :
    ∀ w' : List Direction, validWord free start w' = true →
      wEnd start w' ∉ V →
      ∃ u v, w' = u ++ v ∧ v ≠ [] ∧ ∃ e ∈ q, e.1 = wEnd start u := by
  intro w'
  induction w' using List.reverseRecOn with
  | nil =>
      intro _ hout
      exact absurd inv.startMem hout
  | append_singleton u d ih =>
      intro hv hout
      by_cases hm : wEnd start u ∈ V
      · by_cases hq : ∃ e ∈ q, e.1 = wEnd start u
        · exact ⟨u, [d], rfl, by simp, hq⟩
        · exfalso
          push_neg at hq
          have hfree : free (stepCell (wEnd start u) d) = true := by
            have h2 := free_wEnd (show u ++ [d] ≠ [] by simp) hv
            rwa [wEnd_append] at h2
          have h3 := inv.closedDone (wEnd start u) hm hq d hfree
          rw [wEnd_append] at hout
          exact hout h3
      · obtain ⟨u₁, v₁, he, hne, hw⟩ := ih (validWord_of_append_left hv) hm
        refine ⟨u₁, v₁ ++ [d], ?_, by simp, hw⟩
        rw [he, List.append_assoc]

theorem bfs_empty_unreachable {free : Cell → Bool} {start goal : Cell}
    {V : List Cell} {ws : List (List Direction)}
    (inv : BfsInv free start goal [] V ws) :
    ∀ w', validWord free start w' = true → wEnd start w' ≠ goal := by
  intro w' hv he
  by_cases hg : goal ∈ V
  · obtain ⟨e, he2, _⟩ := inv.goalPending hg
    exact absurd he2 (List.not_mem_nil e)
  · obtain ⟨u, v, _, _, e, he2, _⟩ :=
      bfs_frontier inv w' hv (by rw [he]; exact hg)
    exact absurd he2 (List.not_mem_nil e)

-- Key-minimality of the word attached to a freshly enqueued cell.

theorem child_minimal {free : Cell → Bool} {start goal c : Cell}
    {p : List Cell} {rest : List (Cell × List Cell)} {V : List Cell}
    {w₀ : List Direction} {wt : List (List Direction)}
    (inv : BfsInv free start goal ((c, p) :: rest) V (w₀ :: wt))
    {d : Direction} (hd : d ∈ newDirs free V c) :
    ∀ w', validWord free start w' = true → wEnd start w' = stepCell c d →
      wordKey (w₀ ++ [d]) ≤ wordKey w' := by
  have hE0 : EntryInv free start (c, p) w₀ := by
    cases inv.entries with
    | cons hr _ => exact hr
  have hw0e : wEnd start w₀ = c := hE0.2.1
  intro w' hv he
  obtain ⟨hnotV, _⟩ := mem_newDirs.mp hd
  have hout : wEnd start w' ∉ V := by rw [he]; exact hnotV
  obtain ⟨u, v, hsplit, hvne, e, heq, hcell⟩ := bfs_frontier inv w' hv hout
  obtain ⟨we, hwe_mem, hE⟩ := forall₂_mem_left inv.entries heq
  have hu_valid : validWord free start u = true := by
    rw [hsplit] at hv
    exact validWord_of_append_left hv
  have hmin : wordKey we ≤ wordKey u := hE.2.2.2 u hu_valid hcell.symm
  have hhead : wordKey w₀ ≤ wordKey we := pairwise_head_le inv.sorted we hwe_mem
  have h0u : wordKey w₀ ≤ wordKey u := le_trans hhead hmin
  have hlow : 5 * wordKey u + 1 ≤ wordKey w' := by
    rw [hsplit]
    exact wordKey_ext_lower hvne
  rw [wordKey_snoc]
  rcases lt_or_eq_of_le h0u with hlt | heq2
  · have hi := dIdx_le d
    omega
  · have huw : w₀ = u := wordKey_inj heq2
    have huc : wEnd start u = c := by rw [← huw]; exact hw0e
    cases v with
    | nil => exact absurd rfl hvne
    | cons d' v' =>
        cases v' with
        | nil =>
            have hstep : stepCell c d' = stepCell c d := by
              have h4 : wEnd start (u ++ [d']) = stepCell c d := by
                rw [← hsplit]; exact he
              rw [wEnd_append, huc] at h4
              exact h4
            have hdd : d' = d := stepCell_inj c hstep
            rw [hsplit, hdd, ← huw, wordKey_snoc]
        | cons d'' v'' =>
            have hv2 : 2 ≤ (d' :: d'' :: v'').length := by simp
            have hkey : wordKey w' =
                wordKey u * 5 ^ (d' :: d'' :: v'').length +
                  wordKey (d' :: d'' :: v'') := by
              rw [hsplit, wordKey_append]
            have hpow : 25 ≤ 5 ^ (d' :: d'' :: v'').length := by
              calc (25:ℕ) = 5 ^ 2 := by norm_num
              _ ≤ 5 ^ (d' :: d'' :: v'').length :=
                  Nat.pow_le_pow_right (by norm_num) hv2
            have hkv : 5 ≤ wordKey (d' :: d'' :: v'') := by
              have h5 := pow_le_wordKey
                (show (d' :: d'' :: v'') ≠ [] by simp)
              have h6 : (5:ℕ) = 5 ^ 1 := by norm_num
              have h7 : 5 ^ 1 ≤ 5 ^ ((d' :: d'' :: v'').length - 1) :=
                Nat.pow_le_pow_right (by norm_num) (by omega)
              omega
            have hi := dIdx_le d
            have hmul : wordKey u * 25 ≤
                wordKey u * 5 ^ (d' :: d'' :: v'').length :=
              Nat.mul_le_mul_left _ hpow
            rw [← heq2] at hkey hmul
            nlinarith [Nat.zero_le (wordKey w₀)]

-- One BFS iteration preserves the invariant.

theorem bfs_step {free : Cell → Bool} {start goal c : Cell} {p : List Cell}
    {rest : List (Cell × List Cell)} {V : List Cell}
    {w₀ : List Direction} {wt : List (List Direction)}
    (inv : BfsInv free start goal ((c, p) :: rest) V (w₀ :: wt))
    (hng : c ≠ goal) :
    BfsInv free start goal
      (rest ++ (newDirs free V c).map
        (fun d => (stepCell c d, p ++ [stepCell c d])))
      (((newDirs free V c).map (stepCell c)).reverse ++ V)
      (wt ++ (newDirs free V c).map (fun d => w₀ ++ [d])) := by
  have hE0 : EntryInv free start (c, p) w₀ := by
    cases inv.entries with | cons hr _ => exact hr
  have hEr : List.Forall₂ (EntryInv free start) rest wt := by
    cases inv.entries with | cons _ ht => exact ht
  have hw0v : validWord free start w₀ = true := hE0.1
  have hw0e : wEnd start w₀ = c := hE0.2.1
  have hw0p : p = follow start w₀ := hE0.2.2.1
  have htail_pw : List.Pairwise (fun a b => wordKey a < wordKey b) wt :=
    (List.pairwise_cons.mp inv.sorted).2
  have hhead_lt : ∀ w ∈ wt, wordKey w₀ < wordKey w :=
    (List.pairwise_cons.mp inv.sorted).1
  have hHB : ∀ w ∈ w₀ :: wt, wordKey w ≤ 5 * wordKey w₀ := by
    intro w hw
    exact inv.headBound w hw w₀ rfl
  constructor
  · apply forall₂_append hEr
    apply forall₂_map_map
    intro d hd
    obtain ⟨hnV, hfr⟩ := mem_newDirs.mp hd
    refine ⟨?_, ?_, ?_, ?_⟩
    · rw [validWord_append, hw0e, hw0v]
      show (true && validWord free c [d]) = true
      simp [validWord, hfr]
    · rw [wEnd_append, hw0e]
      rfl
    · rw [follow_snoc, hw0e, ← hw0p]
    · exact child_minimal inv hd
  · rw [List.pairwise_append]
    refine ⟨htail_pw, ?_, ?_⟩
    · rw [List.pairwise_map]
      apply List.Pairwise.imp ?_ (newDirs_sorted free V c)
      intro d₁ d₂ hlt
      rw [wordKey_snoc, wordKey_snoc]
      omega
    · intro a ha b hb
      rw [List.mem_map] at hb
      obtain ⟨d, hd, rfl⟩ := hb
      have h1 : wordKey a ≤ 5 * wordKey w₀ := hHB a (List.mem_cons_of_mem _ ha)
      rw [wordKey_snoc]
      omega
  · intro w hw h₀ hh₀
    cases wt with
    | nil =>
        simp only [List.nil_append] at hw hh₀
        rw [List.mem_map] at hw
        obtain ⟨d, hd, rfl⟩ := hw
        cases hnde : newDirs free V c with
        | nil =>
            rw [hnde] at hh₀
            simp at hh₀
        | cons d₁ nds =>
            rw [hnde] at hh₀
            simp only [List.map_cons, List.head?_cons, Option.some.injEq] at hh₀
            subst hh₀
            rw [wordKey_snoc, wordKey_snoc]
            have hi := dIdx_le d
            omega
    | cons w₁ wt' =>
        have hh : h₀ = w₁ := by
          simp only [List.cons_append, List.head?_cons, Option.some.injEq] at hh₀
          exact hh₀.symm
        rw [hh]
        have h01 : wordKey w₀ < wordKey w₁ := hhead_lt w₁ (by simp)
        rcases List.mem_append.mp hw with hwt | hch
        · have h2 := hHB w (List.mem_cons_of_mem _ hwt)
          omega
        · rw [List.mem_map] at hch
          obtain ⟨d, hd, rfl⟩ := hch
          rw [wordKey_snoc]
          have hi := dIdx_le d
          omega
  · exact List.mem_append.mpr (Or.inr inv.startMem)
  · intro e he
    rcases List.mem_append.mp he with hr | hc2
    · exact List.mem_append.mpr
        (Or.inr (inv.cellsMem e (List.mem_cons_of_mem _ hr)))
    · rw [List.mem_map] at hc2
      obtain ⟨d, hd, rfl⟩ := hc2
      exact mem_expand_visited.mpr (Or.inr ⟨d, hd, rfl⟩)
  · intro z hz
    rcases mem_expand_visited.mp hz with hzv | ⟨d, hd, rfl⟩
    · exact inv.memFree z hzv
    · exact Or.inr (mem_newDirs.mp hd).2
  · intro z hz hno d hfree
    rcases mem_expand_visited.mp hz with hzV | ⟨d', hd', rfl⟩
    · by_cases hzc : z = c
      · subst hzc
        by_cases hin : stepCell z d ∈ V
        · exact mem_expand_visited.mpr (Or.inl hin)
        · exact mem_expand_visited.mpr
            (Or.inr ⟨d, mem_newDirs.mpr ⟨hin, hfree⟩, rfl⟩)
      · have hold : ∀ e ∈ (c, p) :: rest, e.1 ≠ z := by
          intro e he2
          rcases List.mem_cons.mp he2 with rfl | hr
          · exact fun hcz => hzc hcz.symm
          · exact hno e (List.mem_append.mpr (Or.inl hr))
        exact mem_expand_visited.mpr
          (Or.inl (inv.closedDone z hzV hold d hfree))
    · exfalso
      apply hno (stepCell c d', p ++ [stepCell c d'])
        (List.mem_append.mpr (Or.inr (List.mem_map.mpr ⟨d', hd', rfl⟩)))
      rfl
  · intro hg
    rcases mem_expand_visited.mp hg with hV | ⟨d, hd, hgd⟩
    · obtain ⟨e, he, hcell⟩ := inv.goalPending hV
      rcases List.mem_cons.mp he with rfl | hr
      · exact absurd hcell hng
      · exact ⟨e, List.mem_append.mpr (Or.inl hr), hcell⟩
    · exact ⟨(stepCell c d, p ++ [stepCell c d]),
        List.mem_append.mpr (Or.inr (List.mem_map.mpr ⟨d, hd, rfl⟩)), hgd⟩
  · rw [List.nodup_append]
    refine ⟨?_, inv.nodupV, ?_⟩
    · rw [List.nodup_reverse]
      exact List.Nodup.map (fun a b h => stepCell_inj c h)
        (newDirs_nodup free V c)
    · intro x hx
      rw [List.mem_reverse, List.mem_map] at hx
      obtain ⟨d, hd, rfl⟩ := hx
      exact (mem_newDirs.mp hd).1

-- Main BFS loop correctness by induction on fuel.

theorem bfsAux_spec (free : Cell → Bool) (start goal : Cell)
    (hfree : ∀ z, free z = true → inBounds z = true) :
    ∀ (fuel : Nat) (q : List (Cell × List Cell)) (V : List Cell)
      (ws : List (List Direction)),
      BfsInv free start goal q V ws → bfsMeasure q V ≤ fuel →
      BfsOut free start goal (bfsAux free goal fuel q V) := by
  intro fuel
  induction fuel with
  | zero =>
      intro q V ws inv hm
      cases q with
      | nil =>
          show BfsOut free start goal none
          exact bfs_empty_unreachable inv
      | cons e rest =>
          exfalso
          simp [bfsMeasure] at hm
  | succ fuel ih =>
      intro q V ws inv hm
      cases q with
      | nil =>
          show BfsOut free start goal none
          exact bfs_empty_unreachable inv
      | cons e rest =>
          obtain ⟨c, p⟩ := e
          cases ws with
          | nil => exact (nomatch inv.entries)
          | cons w₀ wt =>
              have hE0 : EntryInv free start (c, p) w₀ := by
                cases inv.entries with | cons hr _ => exact hr
              by_cases hg : c = goal
              · have heq : bfsAux free goal (fuel + 1) ((c, p) :: rest) V =
                    some p := by
                  simp only [bfsAux]
                  rw [if_pos hg]
                rw [heq]
                show BfsOut free start goal (some p)
                refine ⟨w₀, hE0.1, ?_, hE0.2.2.1, ?_⟩
                · rw [hE0.2.1, hg]
                · intro w' hv he
                  exact hE0.2.2.2 w' hv (by rw [he, ← hg])
              · have heq : bfsAux free goal (fuel + 1) ((c, p) :: rest) V =
                    bfsAux free goal fuel
                      ((dirList.foldl (expandDir free c p) (rest, V)).1)
                      ((dirList.foldl (expandDir free c p) (rest, V)).2) := by
                  simp only [bfsAux]
                  rw [if_neg hg]
                rw [heq, expand_dirList free c p rest V]
                have hstep := bfs_step inv hg
                apply ih _ _ _ hstep
                have hndL : ((newDirs free V c).map (stepCell c)).reverse.length =
                    (newDirs free V c).length := by
                  rw [List.length_reverse, List.length_map]
                have hcap : (((newDirs free V c).map (stepCell c)).reverse ++ V).length ≤
                    cellCap := by
                  apply length_le_cellCap hstep.nodupV
                  intro z hz
                  exact (hstep.memFree z hz).imp id (hfree z)
                rw [List.length_append, hndL] at hcap
                simp only [bfsMeasure, List.length_append, List.length_map,
                  List.length_cons, hndL] at hm ⊢
                omega

-- Correctness of bfs_path via the initial invariant.

theorem bfs_path_spec (start goal : Cell) (body obstacles : List Cell) :
    BfsOut (freeCell body obstacles) start goal
      (bfs_path start goal body obstacles) := by
  apply bfsAux_spec (freeCell body obstacles) start goal
    (fun z h => freeCell_inBounds h) bfsFuel _ _ [[]]
  · constructor
    · refine List.Forall₂.cons ?_ List.Forall₂.nil
      refine ⟨rfl, rfl, rfl, ?_⟩
      intro w' _ _
      exact Nat.zero_le _
    · exact List.pairwise_singleton _ _
    · intro w hw w₀ hh₀
      simp only [List.head?_cons, Option.some.injEq] at hh₀
      rcases List.mem_singleton.mp hw with rfl
      rw [← hh₀]
      exact Nat.zero_le _
    · exact List.mem_singleton.mpr rfl
    · intro e he
      rcases List.mem_singleton.mp he with rfl
      exact List.mem_singleton.mpr rfl
    · intro z hz
      exact Or.inl (List.mem_singleton.mp hz)
    · intro z hz hno d _
      exfalso
      exact hno (start, [start]) (List.mem_singleton.mpr rfl)
        (List.mem_singleton.mp hz).symm
    · intro hg
      exact ⟨(start, [start]), List.mem_singleton.mpr rfl,
        (List.mem_singleton.mp hg).symm⟩
    · exact List.nodup_singleton _
  · show (cellCap - 1) + 1 ≤ bfsFuel
    decide

-- Equivalence of the cell-path predicate with the direction-word view.

theorem step_ne {a : Cell} {d₁ d₂ : Direction} (h : d₁ ≠ d₂) :
    stepCell a d₁ ≠ stepCell a d₂ :=
  fun he => h (stepCell_inj a he)

theorem adjacent_step (c : Cell) (d : Direction) :
    adjacentB c (stepCell c d) = true := by
  cases d <;> simp [adjacentB]

theorem pathFrom_iff (free : Cell → Bool) (goal : Cell) :
    ∀ (rest : List Cell) (c : Cell),
      pathFrom free goal c rest = true ↔
        ∃ w, validWord free c w = true ∧ wEnd c w = goal ∧
          c :: rest = follow c w := by
  intro rest
  induction rest with
  | nil =>
      intro c
      constructor
      · intro h
        refine ⟨[], rfl, ?_, rfl⟩
        show c = goal
        simpa [pathFrom] using h
      · rintro ⟨w, _, he, hf⟩
        have hl : w.length = 0 := by
          have h2 := congrArg List.length hf
          rw [follow_length] at h2
          simp only [List.length_cons, List.length_nil] at h2
          omega
        obtain rfl : w = [] := List.eq_nil_of_length_eq_zero hl
        show decide (c = goal) = true
        exact decide_eq_true he
  | cons n rest ih =>
      intro c
      constructor
      · intro h
        simp only [pathFrom, Bool.and_eq_true] at h
        obtain ⟨⟨hadj, hfr⟩, hp⟩ := h
        have hd : ∃ d : Direction, stepCell c d = n := by
          simp only [adjacentB, decide_eq_true_eq] at hadj
          rcases hadj with h2 | h2 | h2 | h2
          exacts [⟨.UP, h2⟩, ⟨.DOWN, h2⟩, ⟨.LEFT, h2⟩, ⟨.RIGHT, h2⟩]
        obtain ⟨d, rfl⟩ := hd
        obtain ⟨w, hv, he, hf⟩ := (ih (stepCell c d)).mp hp
        refine ⟨d :: w, ?_, he, ?_⟩
        · show (free (stepCell c d) && validWord free (stepCell c d) w) = true
          rw [hfr, hv]
          rfl
        · show c :: stepCell c d :: rest = c :: follow (stepCell c d) w
          rw [← hf]
      · rintro ⟨w, hv, he, hf⟩
        cases w with
        | nil => simp [follow] at hf
        | cons d w' =>
            have hf2 : n :: rest = follow (stepCell c d) w' := by
              have h2 : c :: n :: rest = c :: follow (stepCell c d) w' := hf
              exact (List.cons.injEq _ _ _ _).mp h2 |>.2
            obtain ⟨t, hsh⟩ := follow_shape w' (stepCell c d)
            rw [hsh] at hf2
            have hn : n = stepCell c d := ((List.cons.injEq _ _ _ _).mp hf2).1
            have hrt : rest = t := ((List.cons.injEq _ _ _ _).mp hf2).2
            simp only [pathFrom, Bool.and_eq_true]
            have hv12 : free (stepCell c d) = true ∧
                validWord free (stepCell c d) w' = true := by
              simpa [validWord] using hv
            have hv1 : free (stepCell c d) = true := hv12.1
            have hv2 : validWord free (stepCell c d) w' = true := hv12.2
            refine ⟨⟨?_, ?_⟩, ?_⟩
            · rw [hn]
              exact adjacent_step c d
            · rw [hn]
              exact hv1
            · rw [hn]
              exact (ih (stepCell c d)).mpr ⟨w', hv2, he, by rw [hrt, hsh]⟩

theorem isPath_iff (free : Cell → Bool) (start goal : Cell) (p : List Cell) :
    isPathB free start goal p = true ↔
      ∃ w, validWord free start w = true ∧ wEnd start w = goal ∧
        p = follow start w := by
  cases p with
  | nil =>
      constructor
      · intro h
        exact absurd h (by simp [isPathB])
      · rintro ⟨w, _, _, hf⟩
        obtain ⟨t, hsh⟩ := follow_shape w start
        rw [hsh] at hf
        exact absurd hf (by simp)
  | cons c rest =>
      show (decide (c = start) && pathFrom free goal c rest) = true ↔ _
      constructor
      · intro h
        have h2 : c = start ∧ pathFrom free goal c rest = true := by
          simpa using h
        obtain ⟨hc, hp⟩ := h2
        subst hc
        obtain ⟨w, hv, he, hf⟩ := (pathFrom_iff free goal rest c).mp hp
        exact ⟨w, hv, he, hf⟩
      · rintro ⟨w, hv, he, hf⟩
        obtain ⟨t, hsh⟩ := follow_shape w start
        rw [hsh] at hf
        have hc : c = start := ((List.cons.injEq _ _ _ _).mp hf).1
        subst hc
        rw [Bool.and_eq_true]
        refine ⟨decide_eq_true rfl, ?_⟩
        exact (pathFrom_iff free goal rest c).mpr ⟨w, hv, he, by rw [hf, ← hsh]⟩

-- Direction words of traced paths and the lexicographic bridge.

theorem stepIdx_step (a : Cell) (d : Direction) :
    stepIdxN a (stepCell a d) = dIdx d := by
  have hUD : stepCell a .DOWN ≠ stepCell a .UP := step_ne (by decide)
  have hLU : stepCell a .LEFT ≠ stepCell a .UP := step_ne (by decide)
  have hLD : stepCell a .LEFT ≠ stepCell a .DOWN := step_ne (by decide)
  have hRU : stepCell a .RIGHT ≠ stepCell a .UP := step_ne (by decide)
  have hRD : stepCell a .RIGHT ≠ stepCell a .DOWN := step_ne (by decide)
  have hRL : stepCell a .RIGHT ≠ stepCell a .LEFT := step_ne (by decide)
  cases d <;> simp [stepIdxN, dIdx, hUD, hLU, hLD, hRU, hRD, hRL]

theorem dirWord_follow : ∀ (w : List Direction) (s : Cell),
    dirWord (follow s w) = w.map dIdx := by
  intro w
  induction w with
  | nil => intro s; rfl
  | cons d w ih =>
      intro s
      obtain ⟨t, ht⟩ := follow_shape w (stepCell s d)
      show dirWord (s :: follow (stepCell s d) w) = dIdx d :: w.map dIdx
      rw [ht]
      show stepIdxN s (stepCell s d) :: dirWord (stepCell s d :: t) = _
      rw [stepIdx_step, ← ht, ih (stepCell s d)]

theorem lexLE_of_wordKey_le : ∀ {w₁ w₂ : List Direction},
    w₁.length = w₂.length → wordKey w₁ ≤ wordKey w₂ →
    lexLE (w₁.map dIdx) (w₂.map dIdx) = true := by
  intro w₁
  induction w₁ with
  | nil => intro w₂ _ _; rfl
  | cons d₁ w₁ ih =>
      intro w₂ hlen hk
      cases w₂ with
      | nil => simp at hlen
      | cons d₂ w₂ =>
          rw [wordKey_cons, wordKey_cons] at hk
          have hl2 : w₁.length = w₂.length := by simpa using hlen
          rw [← hl2] at hk
          have k1 := wordKey_lt_pow w₁
          have k2 : wordKey w₂ < 5 ^ w₁.length := hl2 ▸ wordKey_lt_pow w₂
          have hcase : dIdx d₁ < dIdx d₂ ∨
              (dIdx d₁ = dIdx d₂ ∧ wordKey w₁ ≤ wordKey w₂) := by
            cases d₁ <;> cases d₂ <;> simp [dIdx] at hk ⊢ <;> omega
          show (decide (dIdx d₁ < dIdx d₂) ||
            (decide (dIdx d₁ = dIdx d₂) &&
              lexLE (w₁.map dIdx) (w₂.map dIdx))) = true
          rcases hcase with h | ⟨h1, h2⟩
          · simp [h]
          · simp [h1, ih hl2 h2]

/-- C1: for every start cell, goal cell and blocked set (the searching
snake's body, plus the obstacle set and the grid bounds), `bfs_path` returns
a sequence of 4-adjacent cells from start to goal inclusive whose cells
after the start are all passable; the returned path is shortest among all
such paths, and among equally short paths it is the one whose direction
word is smallest in the UP, DOWN, LEFT, RIGHT expansion order (the path
first reached by the BFS expansion); `bfs_path` returns `none` exactly when
no such path exists. -/
theorem claim_C1 (start goal : Cell) (body obstacles : List Cell) :
    (∀ p, bfs_path start goal body obstacles = some p →
      isPathB (freeCell body obstacles) start goal p = true ∧
        ∀ q, isPathB (freeCell body obstacles) start goal q = true →
          p.length ≤ q.length ∧
            (q.length = p.length → lexLE (dirWord p) (dirWord q) = true)) ∧
    (bfs_path start goal body obstacles = none ↔
      ∀ q, isPathB (freeCell body obstacles) start goal q = false) := by
  have hspec := bfs_path_spec start goal body obstacles
  constructor
  · intro p hp
    rw [hp] at hspec
    obtain ⟨w, hv, he, hf, hmin⟩ := hspec
    constructor
    · exact (isPath_iff _ _ _ _).mpr ⟨w, hv, he, hf⟩
    · intro q hq
      obtain ⟨w', hv', he', hf'⟩ := (isPath_iff _ _ _ _).mp hq
      have hk := hmin w' hv' he'
      have hlen := length_le_of_wordKey_le hk
      constructor
      · rw [hf, hf', follow_length, follow_length]
        omega
      · intro hql
        have hl : w.length = w'.length := by
          rw [hf, hf', follow_length, follow_length] at hql
          omega
        rw [hf, hf', dirWord_follow, dirWord_follow]
        exact lexLE_of_wordKey_le hl hk
  · constructor
    · intro hn q
      rw [hn] at hspec
      cases hb : isPathB (freeCell body obstacles) start goal q with
      | false => rfl
      | true =>
          exfalso
          obtain ⟨w', hv', he', _⟩ := (isPath_iff _ _ _ _).mp hb
          exact hspec w' hv' he'
    · intro hall
      cases hb : bfs_path start goal body obstacles with
      | none => rfl
      | some p =>
          exfalso
          rw [hb] at hspec
          obtain ⟨w, hv, he, _, _⟩ := hspec
          have hP : isPathB (freeCell body obstacles) start goal
              (follow start w) = true :=
            (isPath_iff _ _ _ _).mpr ⟨w, hv, he, rfl⟩
          rw [hall (follow start w)] at hP
          exact Bool.false_ne_true hP

/-- C1 witness: a concrete run, one step up from (1,1) to (1,0). -/
theorem claim_C1_witness :
    bfs_path (1, 1) (1, 0) [] [] = some [(1, 1), (1, 0)] ∧
      isPathB (freeCell [] []) (1, 1) (1, 0) [(1, 1), (1, 0)] = true := by
  refine ⟨by decide, ?_⟩
  exact ((claim_C1 (1, 1) (1, 0) [] []).1 [(1, 1), (1, 0)] (by decide)).1

-- Snake.move structure.

theorem move_body_true (s : Snake) :
    (s.move true).body = stepCell s.headCell s.direction :: s.body := rfl

theorem move_body_false (s : Snake) :
    (s.move false).body =
      (stepCell s.headCell s.direction :: s.body).dropLast := rfl

/-- C4: on a snake with non-empty body, `move` prepends the new head (old
head plus the direction's unit delta) and drops the tail cell exactly when
not growing; the length grows by one when growing and is unchanged
otherwise. -/
theorem claim_C4 (s : Snake) (grow : Bool) (h : s.body ≠ []) :
    (s.move grow).body =
      stepCell s.headCell s.direction ::
        (if grow then s.body else s.body.dropLast) ∧
    (s.move grow).body.length =
      s.body.length + (if grow then 1 else 0) := by
  obtain ⟨c, t, hb⟩ : ∃ c t, s.body = c :: t := by
    cases hbb : s.body with
    | nil => exact absurd hbb h
    | cons c t => exact ⟨c, t, rfl⟩
  cases grow with
  | true =>
      refine ⟨by rw [move_body_true]; simp, ?_⟩
      rw [move_body_true]
      simp
  | false =>
      constructor
      · rw [move_body_false, hb]
        simp only [if_neg (by simp : ¬(false = true))]
        rfl
      · rw [move_body_false, List.length_dropLast]
        simp only [List.length_cons, if_neg (by simp : ¬(false = true))]
        omega

/-- C4 witness: moving a length-2 snake right, without and with growth. -/
theorem claim_C4_witness :
    ((mkSnake [(5, 5), (4, 5)] .RIGHT false).move false).body =
        stepCell (mkSnake [(5, 5), (4, 5)] .RIGHT false).headCell
          (mkSnake [(5, 5), (4, 5)] .RIGHT false).direction ::
          (if false then (mkSnake [(5, 5), (4, 5)] .RIGHT false).body
            else (mkSnake [(5, 5), (4, 5)] .RIGHT false).body.dropLast) ∧
      ((mkSnake [(5, 5), (4, 5)] .RIGHT false).move false).body.length =
        (mkSnake [(5, 5), (4, 5)] .RIGHT false).body.length +
          (if false then 1 else 0) :=
  claim_C4 (mkSnake [(5, 5), (4, 5)] .RIGHT false) false (by decide)

/-- C5: `check_collision` is true exactly when the head is out of bounds,
equals another body cell, or is an obstacle; a player at (0,5) moving LEFT
collides after `move`; a length-4 snake whose head equals its own third
body cell collides.  It is a pure function in this embedding. -/
theorem claim_C5 :
    (∀ (s : Snake) (obstacles : List Cell), s.body ≠ [] →
      (s.check_collision obstacles = true ↔
        (inBounds s.headCell = false ∨ s.headCell ∈ s.body.tail ∨
          s.headCell ∈ obstacles))) ∧
    ((mkSnake [(0, 5)] .LEFT false).move false).check_collision [] = true ∧
    (mkSnake [(5, 5), (6, 5), (5, 5), (4, 5)] .UP false).check_collision []
      = true := by
  refine ⟨?_, by decide, by decide⟩
  intro s obstacles _
  simp [Snake.check_collision]
  tauto

/-- C5 witness: the general characterization at a concrete in-bounds snake
whose head hits neither body nor obstacles. -/
theorem claim_C5_witness :
    (mkSnake [(5, 5), (4, 5)] .RIGHT false).body ≠ [] ∧
      ((mkSnake [(5, 5), (4, 5)] .RIGHT false).check_collision [(9, 9)] = true ↔
        (inBounds (mkSnake [(5, 5), (4, 5)] .RIGHT false).headCell = false ∨
          (mkSnake [(5, 5), (4, 5)] .RIGHT false).headCell ∈
            (mkSnake [(5, 5), (4, 5)] .RIGHT false).body.tail ∨
          (mkSnake [(5, 5), (4, 5)] .RIGHT false).headCell ∈
            ([(9, 9)] : List Cell))) :=
  ⟨by decide, claim_C5.1 (mkSnake [(5, 5), (4, 5)] .RIGHT false) [(9, 9)]
    (by decide)⟩

/-- C6 counterexample: with direction RIGHT, the event sequence UP then
LEFT inside one tick leaves the player moving LEFT, the exact opposite of
RIGHT. -/
theorem claim_C6_counterexample :
    (Game.handle_input .RIGHT [.keyUp, .keyLeft]).1 = .LEFT ∧
      Direction.opposite .RIGHT = .LEFT := by
  decide

/-- C6 (amended): a single direction-change request is never accepted when
it is the exact opposite of the current direction (a LEFT request while
moving RIGHT leaves the direction RIGHT); however a sequence of two
requests within one tick can produce a net 180° reversal through an
intermediate perpendicular direction. -/
theorem claim_C6_amended :
    (∀ (d : Direction) (e : GEvent),
      (Game.handle_input d [e]).1 ≠ Direction.opposite d) ∧
    (Game.handle_input .RIGHT [.keyLeft]).1 = .RIGHT := by
  refine ⟨?_, by decide⟩
  intro d e
  cases d <;> cases e <;> decide

-- Opening Snake.ai_move on an AI snake.

theorem ai_move_open (s : Snake) (food : Cell) (obstacles : List Cell)
    (hai : s.is_ai = true) :
    s.ai_move food obstacles =
      match bfs_path s.headCell food s.body obstacles with
      | some (_ :: nxt :: _) =>
          if nxt.1 - s.headCell.1 = 1 then { s with direction := .RIGHT }
          else if nxt.1 - s.headCell.1 = -1 then { s with direction := .LEFT }
          else if nxt.2 - s.headCell.2 = 1 then { s with direction := .DOWN }
          else if nxt.2 - s.headCell.2 = -1 then { s with direction := .UP }
          else s
      | _ => s := by
  unfold Snake.ai_move
  rw [hai]
  rfl

/-- C7: on an AI snake, if `bfs_path` returns a path of length greater than
one, `ai_move` sets the direction to the unique direction whose unit delta
is `path[1] - path[0]`; when it returns `none` or a length-one path, the
snake is left unchanged (the no-path case raises no error, `ai_move` being
total). -/
theorem claim_C7 (s : Snake) (food : Cell) (obstacles : List Cell)
    (hai : s.is_ai = true) (hb : s.body ≠ []) :
    (∀ c0 c1 rest2,
      bfs_path s.headCell food s.body obstacles = some (c0 :: c1 :: rest2) →
      ∃ d : Direction, stepCell c0 d = c1 ∧
        s.ai_move food obstacles = { s with direction := d }) ∧
    (bfs_path s.headCell food s.body obstacles = none →
      s.ai_move food obstacles = s) ∧
    (∀ c0, bfs_path s.headCell food s.body obstacles = some [c0] →
      s.ai_move food obstacles = s) := by
  refine ⟨?_, ?_, ?_⟩
  · intro c0 c1 rest2 hp
    have hspec := bfs_path_spec s.headCell food s.body obstacles
    rw [hp] at hspec
    obtain ⟨w, _, _, hf, _⟩ := hspec
    cases w with
    | nil => simp [follow] at hf
    | cons d w' =>
        have hf1 : c0 = s.headCell ∧
            c1 :: rest2 = follow (stepCell s.headCell d) w' := by
          have h2 : c0 :: c1 :: rest2 =
              s.headCell :: follow (stepCell s.headCell d) w' := hf
          exact ⟨((List.cons.injEq _ _ _ _).mp h2).1,
            ((List.cons.injEq _ _ _ _).mp h2).2⟩
        obtain ⟨t, hsh⟩ := follow_shape w' (stepCell s.headCell d)
        have hc1 : c1 = stepCell s.headCell d := by
          have h3 := hf1.2
          rw [hsh] at h3
          exact ((List.cons.injEq _ _ _ _).mp h3).1
        refine ⟨d, by rw [hf1.1, hc1], ?_⟩
        rw [ai_move_open s food obstacles hai, hp]
        show (if c1.1 - s.headCell.1 = 1 then { s with direction := Direction.RIGHT }
          else if c1.1 - s.headCell.1 = -1 then { s with direction := Direction.LEFT }
          else if c1.2 - s.headCell.2 = 1 then { s with direction := Direction.DOWN }
          else if c1.2 - s.headCell.2 = -1 then { s with direction := Direction.UP }
          else s) = { s with direction := d }
        rw [hc1]
        cases d <;> simp [stepCell, Direction.delta]
  · intro hp
    rw [ai_move_open s food obstacles hai, hp]
  · intro c0 hp
    rw [ai_move_open s food obstacles hai, hp]

/-- C7 witness: the AI snake at (5,5) heading LEFT turns RIGHT toward the
food at (6,5), following `path[1] - path[0]`. -/
theorem claim_C7_witness :
    C7snake.is_ai = true ∧
      bfs_path C7snake.headCell (6, 5) C7snake.body [] =
        some [(5, 5), (6, 5)] ∧
      C7snake.ai_move (6, 5) [] = { C7snake with direction := .RIGHT } := by
  refine ⟨rfl, by decide, ?_⟩
  obtain ⟨d, hd, he⟩ :=
    (claim_C7 C7snake (6, 5) [] rfl (by decide)).1 (5, 5) (6, 5) [] (by decide)
  have hdr : d = Direction.RIGHT := by
    cases d <;> simp [stepCell, Direction.delta, Prod.ext_iff] at hd <;> rfl
  rw [← hdr]
  exact he

-- Rejection-sampling and phase inversion lemmas.

theorem findFreeCell_ok {ok : Cell → Bool} :
    ∀ {n : Nat} {seq : Nat → Cell} {c : Cell},
      findFreeCell ok seq n = some c → ok c = true := by
  intro n
  induction n with
  | zero => intro seq c h; exact absurd h (by simp [findFreeCell])
  | succ n ih =>
      intro seq c h
      unfold findFreeCell at h
      by_cases hc : ok (seq 0) = true
      · rw [if_pos hc] at h
        obtain rfl : seq 0 = c := by injection h
        exact hc
      · rw [if_neg hc] at h
        exact ih h

theorem spawn_food_ok {playerBody : List Cell} {ai : Option Snake}
    {obstacles : List Cell} {rng : Rng} {c : Cell}
    (h : Game.spawn_food playerBody ai obstacles rng = some c) :
    c ∉ playerBody ∧ (∀ a, ai = some a → c ∉ a.body) ∧ c ∉ obstacles := by
  have h2 := findFreeCell_ok h
  unfold foodOk at h2
  cases ai with
  | none =>
      simp only [Bool.and_eq_true, Bool.not_eq_true', decide_eq_false_iff_not]
        at h2
      exact ⟨h2.1.1, fun a ha => absurd ha (by simp), h2.2⟩
  | some a =>
      simp only [Bool.and_eq_true, Bool.not_eq_true', decide_eq_false_iff_not]
        at h2
      refine ⟨h2.1.1, ?_, h2.2⟩
      intro a' ha'
      obtain rfl : a = a' := by injection ha'
      exact h2.1.2

theorem spawn_power_up_ok {playerBody : List Cell} {food : Cell}
    {obstacles : List Cell} {rng : Rng} {old : Option PowerUp} {pu : PowerUp}
    (hch : rng.puChance = true)
    (h : Game.spawn_power_up playerBody food obstacles rng old =
      some (some pu)) :
    (pu.x, pu.y) ∉ playerBody ∧ (pu.x, pu.y) ≠ food ∧
      (pu.x, pu.y) ∉ obstacles := by
  unfold Game.spawn_power_up at h
  rw [if_pos hch] at h
  cases hf : findFreeCell (powerUpOk playerBody food obstacles) rng.puSeq
      spawnFuel with
  | none => rw [hf] at h; exact absurd h (by simp)
  | some c =>
      rw [hf] at h
      have hok := findFreeCell_ok hf
      have hpu : pu = { x := c.1, y := c.2, type := rng.puType } := by
        have h2 : some ({ x := c.1, y := c.2, type := rng.puType } :
            PowerUp) = some pu := by injection h
        injection h2 with h3
        exact h3.symm
      unfold powerUpOk at hok
      simp only [Bool.and_eq_true, Bool.not_eq_true', decide_eq_false_iff_not]
        at hok
      rw [hpu]
      exact ⟨hok.1.1, hok.1.2, hok.2⟩

theorem eatPhase_false {player1 : Snake} {ai1 : Option Snake} {food : Cell}
    {oldPu : Option PowerUp} {obstacles : List Cell} {rng : Rng} :
    Game.eatPhase false player1 ai1 food oldPu obstacles rng =
      some (player1, food, oldPu) := by
  unfold Game.eatPhase
  rfl

theorem eatPhase_true {player1 : Snake} {ai1 : Option Snake} {food : Cell}
    {oldPu : Option PowerUp} {obstacles : List Cell} {rng : Rng}
    {out : Snake × Cell × Option PowerUp}
    (h : Game.eatPhase true player1 ai1 food oldPu obstacles rng = some out) :
    out.1 = { player1 with score := player1.score +
        (if (player1.power_ups PowerUpType.DOUBLE_POINTS).isSome
          then 20 else 10) } ∧
      Game.spawn_food out.1.body ai1 obstacles rng = some out.2.1 := by
  unfold Game.eatPhase at h
  rw [if_pos rfl] at h
  dsimp only at h
  cases hf : Game.spawn_food ({ player1 with score := player1.score +
      (if (player1.power_ups PowerUpType.DOUBLE_POINTS).isSome
        then 20 else 10) } : Snake).body ai1 obstacles rng with
  | none =>
      rw [hf] at h
      exact absurd h (by simp)
  | some f =>
      rw [hf] at h
      dsimp only at h
      by_cases hroll : rng.puRoll = true
      · rw [if_pos hroll] at h
        cases hpu : Game.spawn_power_up ({ player1 with score :=
            player1.score + (if (player1.power_ups
              PowerUpType.DOUBLE_POINTS).isSome then 20 else 10) } :
                Snake).body f obstacles rng oldPu with
        | none => rw [hpu] at h; exact absurd h (by simp)
        | some pu =>
            rw [hpu] at h
            have hout : out = ({ player1 with score := player1.score +
                (if (player1.power_ups PowerUpType.DOUBLE_POINTS).isSome
                  then 20 else 10) }, f, pu) := by
              injection h with h2
              exact h2.symm
            rw [hout]
            exact ⟨rfl, hf⟩
      · rw [if_neg hroll] at h
        have hout : out = ({ player1 with score := player1.score +
            (if (player1.power_ups PowerUpType.DOUBLE_POINTS).isSome
              then 20 else 10) }, f, oldPu) := by
          injection h with h2
          exact h2.symm
        rw [hout]
        exact ⟨rfl, hf⟩

theorem aiEatPhase_false {pwe : Bool} {player2 : Snake} {ai1 : Option Snake}
    {food1 : Cell} {obstacles : List Cell} {rng : Rng} :
    Game.aiEatPhase false pwe player2 ai1 food1 obstacles rng =
      some (ai1, food1) := by
  unfold Game.aiEatPhase
  rfl

theorem aiEatPhase_true {pwe : Bool} {player2 : Snake} {a1 : Snake}
    {food1 : Cell} {obstacles : List Cell} {rng : Rng}
    {out : Option Snake × Cell}
    (h : Game.aiEatPhase true pwe player2 (some a1) food1 obstacles rng =
      some out) :
    out.1 = some { a1 with score := a1.score + 10 } ∧
      ((pwe = true ∧ out.2 = food1) ∨
        (pwe = false ∧ Game.spawn_food player2.body
          (some { a1 with score := a1.score + 10 }) obstacles rng =
            some out.2)) := by
  unfold Game.aiEatPhase at h
  rw [if_pos rfl] at h
  dsimp only at h
  by_cases hpwe : pwe = true
  · rw [if_pos hpwe] at h
    have hout : out = (some { a1 with score := a1.score + 10 }, food1) := by
      injection h with h2
      exact h2.symm
    subst hout
    exact ⟨rfl, Or.inl ⟨hpwe, rfl⟩⟩
  · rw [if_neg hpwe] at h
    cases hf : Game.spawn_food player2.body
        (some ({ a1 with score := a1.score + 10 } : Snake)) obstacles rng with
    | none => rw [hf] at h; exact absurd h (by simp)
    | some f2 =>
        rw [hf] at h
        have hout : out = (some { a1 with score := a1.score + 10 }, f2) := by
          injection h with h2
          exact h2.symm
        subst hout
        exact ⟨rfl, Or.inr ⟨by simpa using hpwe, rfl⟩⟩

-- pickupPhase facts.

theorem pickupPhase_body (player2 : Snake) (pu1 : Option PowerUp) (now : Nat) :
    (Game.pickupPhase player2 pu1 now).1.body = player2.body := by
  unfold Game.pickupPhase
  cases pu1 with
  | none => rfl
  | some pu =>
      dsimp only
      by_cases hc : player2.headCell = (pu.x, pu.y)
      · rw [if_pos hc]
      · rw [if_neg hc]

theorem pickupPhase_score (player2 : Snake) (pu1 : Option PowerUp)
    (now : Nat) :
    (Game.pickupPhase player2 pu1 now).1.score = player2.score := by
  unfold Game.pickupPhase
  cases pu1 with
  | none => rfl
  | some pu =>
      dsimp only
      by_cases hc : player2.headCell = (pu.x, pu.y)
      · rw [if_pos hc]
      · rw [if_neg hc]

theorem pickupPhase_alive (player2 : Snake) (pu1 : Option PowerUp)
    (now : Nat) :
    (Game.pickupPhase player2 pu1 now).1.alive = player2.alive := by
  unfold Game.pickupPhase
  cases pu1 with
  | none => rfl
  | some pu =>
      dsimp only
      by_cases hc : player2.headCell = (pu.x, pu.y)
      · rw [if_pos hc]
      · rw [if_neg hc]

theorem pickupPhase_direction (player2 : Snake) (pu1 : Option PowerUp)
    (now : Nat) :
    (Game.pickupPhase player2 pu1 now).1.direction = player2.direction := by
  unfold Game.pickupPhase
  cases pu1 with
  | none => rfl
  | some pu =>
      dsimp only
      by_cases hc : player2.headCell = (pu.x, pu.y)
      · rw [if_pos hc]
      · rw [if_neg hc]

theorem pickupPhase_headCell (player2 : Snake) (pu1 : Option PowerUp)
    (now : Nat) :
    (Game.pickupPhase player2 pu1 now).1.headCell = player2.headCell := by
  unfold Snake.headCell
  rw [pickupPhase_body]

theorem pickupPhase_pu_isSome (player2 : Snake) (pu1 : Option PowerUp)
    (now : Nat) (k : PowerUpType)
    (hk : (player2.power_ups k).isSome = true) :
    ((Game.pickupPhase player2 pu1 now).1.power_ups k).isSome = true := by
  unfold Game.pickupPhase
  cases pu1 with
  | none => exact hk
  | some pu =>
      dsimp only
      by_cases hc : player2.headCell = (pu.x, pu.y)
      · rw [if_pos hc]
        show ((if k = pu.type then some now else player2.power_ups k).isSome)
          = true
        by_cases hk2 : k = pu.type
        · rw [if_pos hk2]; rfl
        · rw [if_neg hk2]; exact hk
      · rw [if_neg hc]
        exact hk

-- collisionPhase facts.

theorem collisionPhase_food (player3 : Snake) (ai2 : Option Snake)
    (food2 : Cell) (pu2 : Option PowerUp) (obstacles : List Cell) :
    (Game.collisionPhase player3 ai2 food2 pu2 obstacles).1.food = food2 := by
  unfold Game.collisionPhase
  by_cases hc : player3.check_collision obstacles = true
  · rw [if_pos hc]
  · rw [if_neg hc]

theorem collisionPhase_obstacles (player3 : Snake) (ai2 : Option Snake)
    (food2 : Cell) (pu2 : Option PowerUp) (obstacles : List Cell) :
    (Game.collisionPhase player3 ai2 food2 pu2 obstacles).1.obstacles =
      obstacles := by
  unfold Game.collisionPhase
  by_cases hc : player3.check_collision obstacles = true
  · rw [if_pos hc]
  · rw [if_neg hc]

theorem collisionPhase_player_body (player3 : Snake) (ai2 : Option Snake)
    (food2 : Cell) (pu2 : Option PowerUp) (obstacles : List Cell) :
    (Game.collisionPhase player3 ai2 food2 pu2 obstacles).1.player.body =
      player3.body := by
  unfold Game.collisionPhase
  by_cases hc : player3.check_collision obstacles = true
  · rw [if_pos hc]
  · rw [if_neg hc]

theorem collisionPhase_player_score (player3 : Snake) (ai2 : Option Snake)
    (food2 : Cell) (pu2 : Option PowerUp) (obstacles : List Cell) :
    (Game.collisionPhase player3 ai2 food2 pu2 obstacles).1.player.score =
      player3.score := by
  unfold Game.collisionPhase
  by_cases hc : player3.check_collision obstacles = true
  · rw [if_pos hc]
  · rw [if_neg hc]

theorem collisionPhase_player_power_ups (player3 : Snake) (ai2 : Option Snake)
    (food2 : Cell) (pu2 : Option PowerUp) (obstacles : List Cell) :
    (Game.collisionPhase player3 ai2 food2 pu2 obstacles).1.player.power_ups =
      player3.power_ups := by
  unfold Game.collisionPhase
  by_cases hc : player3.check_collision obstacles = true
  · rw [if_pos hc]
  · rw [if_neg hc]

theorem collisionPhase_ai (player3 : Snake) (ai2 : Option Snake)
    (food2 : Cell) (pu2 : Option PowerUp) (obstacles : List Cell) :
    ∀ a', (Game.collisionPhase player3 ai2 food2 pu2 obstacles).1.ai_snake =
        some a' →
      ∃ a, ai2 = some a ∧ a'.body = a.body ∧ a'.score = a.score ∧
        (a'.alive = true → a.alive = true) := by
  intro a' ha'
  unfold Game.collisionPhase at ha'
  by_cases hc : player3.check_collision obstacles = true
  · rw [if_pos hc] at ha'
    exact ⟨a', ha', rfl, rfl, fun h => h⟩
  · rw [if_neg hc] at ha'
    dsimp only at ha'
    cases ai2 with
    | none => exact absurd ha' (by simp)
    | some a =>
        dsimp only at ha'
        by_cases hk : (a.alive && a.check_collision obstacles) = true
        · rw [if_pos hk] at ha'
          have he : ({ a with alive := false } : Snake) = a' := by
            injection ha'
          refine ⟨a, rfl, ?_, ?_, ?_⟩
          · rw [← he]
          · rw [← he]
          · rw [← he]
            intro hfa
            exact absurd hfa (by simp)
        · rw [if_neg hk] at ha'
          have he : a = a' := by injection ha'
          exact ⟨a, rfl, by rw [← he], by rw [← he], fun _ =>
            by rw [← he] at *; exact (by rw [he] at *; exact (by simp_all))⟩

theorem collisionPhase_player_alive (player3 : Snake) (ai2 : Option Snake)
    (food2 : Cell) (pu2 : Option PowerUp) (obstacles : List Cell) :
    (Game.collisionPhase player3 ai2 food2 pu2 obstacles).1.player.alive =
        true →
      player3.alive = true := by
  intro h
  unfold Game.collisionPhase at h
  by_cases hc : player3.check_collision obstacles = true
  · rw [if_pos hc] at h
    exact absurd h (by simp)
  · rw [if_neg hc] at h
    exact h

theorem update_inv {g : GameState} {rng : Rng} {res : GameState × Bool}
    (h : Game.update g rng = some res) :
    ∃ player2 food1 pu1 ai2 food2,
      Game.eatPhase (updPwe g) (updPlayer1 g) (updAi1 g) g.food g.power_up
        g.obstacles rng = some (player2, food1, pu1) ∧
      Game.aiEatPhase (updAwe g) (updPwe g) player2 (updAi1 g) food1
        g.obstacles rng = some (ai2, food2) ∧
      res = Game.collisionPhase (Game.pickupPhase player2 pu1 rng.now).1 ai2
        food2 (Game.pickupPhase player2 pu1 rng.now).2 g.obstacles := by
  unfold Game.update at h
  cases he : Game.eatPhase (updPwe g) (updPlayer1 g) (updAi1 g) g.food
      g.power_up g.obstacles rng with
  | none => rw [he] at h; exact absurd h (by simp)
  | some trip =>
      obtain ⟨player2, food1, pu1⟩ := trip
      rw [he] at h
      dsimp only at h
      cases ha : Game.aiEatPhase (updAwe g) (updPwe g) player2 (updAi1 g)
          food1 g.obstacles rng with
      | none => rw [ha] at h; exact absurd h (by simp)
      | some pair =>
          obtain ⟨ai2, food2⟩ := pair
          rw [ha] at h
          dsimp only at h
          refine ⟨player2, food1, pu1, ai2, food2, rfl, ha, ?_⟩
          injection h with h2
          exact h2.symm

/-- C9: a simulation tick never removes an entry from the player's active
power-up mapping: any kind present before `Game.update` is still present in
the tick's result (pickups may refresh a timestamp but never delete a
kind), so an activated effect stays active for the rest of the round. -/
theorem claim_C9 (g : GameState) (rng : Rng) (k : PowerUpType)
    (hk : (g.player.power_ups k).isSome = true) :
    (Game.update g rng).all
      (fun res => (res.1.player.power_ups k).isSome) = true := by
  cases hu : Game.update g rng with
  | none => rfl
  | some res =>
      show (res.1.player.power_ups k).isSome = true
      obtain ⟨player2, food1, pu1, ai2, food2, he, ha, hres⟩ := update_inv hu
      have hp2 : player2.power_ups = g.player.power_ups := by
        cases hb : updPwe g with
        | true =>
            rw [hb] at he
            have h2 := (eatPhase_true he).1
            have h3 : player2 = { updPlayer1 g with score :=
                (updPlayer1 g).score +
                  (if ((updPlayer1 g).power_ups
                    PowerUpType.DOUBLE_POINTS).isSome then 20 else 10) } := h2
            rw [h3]
            rfl
        | false =>
            rw [hb, eatPhase_false] at he
            have h2 : updPlayer1 g = player2 := by
              injection he with h3
              exact congrArg Prod.fst h3
            rw [← h2]
            rfl
      rw [hres, collisionPhase_player_power_ups]
      apply pickupPhase_pu_isSome
      rw [hp2]
      exact hk

/-- C9 witness: a tick of a player holding DOUBLE_POINTS; the entry is
still present afterwards, and the tick succeeds. -/
theorem claim_C9_witness :
    (Game.update gC9 rngC2).all
        (fun res =>
          (res.1.player.power_ups PowerUpType.DOUBLE_POINTS).isSome) = true ∧
      (Game.update gC9 rngC2).isSome = true :=
  ⟨claim_C9 gC9 rngC2 PowerUpType.DOUBLE_POINTS (by decide), by decide⟩

-- Support lemmas about moved snakes and the will-eat flags.

theorem mem_of_mem_dropLast {α : Type} :
    ∀ {l : List α} {x : α}, x ∈ l.dropLast → x ∈ l := by
  intro l
  induction l with
  | nil => intro x h; simpa using h
  | cons a t ih =>
      intro x h
      cases t with
      | nil => simp at h
      | cons b t2 =>
          rw [show (a :: b :: t2).dropLast = a :: (b :: t2).dropLast from rfl]
            at h
          rcases List.mem_cons.mp h with rfl | h2
          · exact List.mem_cons_self _ _
          · exact List.mem_cons_of_mem _ (ih h2)

theorem move_tail_subset (s : Snake) (b : Bool) (hb : s.body ≠ []) :
    ∀ x ∈ (s.move b).body.tail, x ∈ s.body := by
  intro x hx
  cases b with
  | true =>
      rw [move_body_true] at hx
      simpa using hx
  | false =>
      rw [move_body_false] at hx
      obtain ⟨c, t, hbb⟩ : ∃ c t, s.body = c :: t := by
        cases hbb : s.body with
        | nil => exact absurd hbb hb
        | cons c t => exact ⟨c, t, rfl⟩
      rw [hbb] at hx
      have hx2 : x ∈ (c :: t).dropLast := by
        rw [show ((stepCell s.headCell s.direction :: c :: t).dropLast) =
          stepCell s.headCell s.direction :: (c :: t).dropLast from rfl] at hx
        simpa using hx
      rw [hbb]
      exact mem_of_mem_dropLast hx2

theorem headCell_mem {s : Snake} (h : s.body ≠ []) : s.headCell ∈ s.body := by
  unfold Snake.headCell
  cases hb : s.body with
  | nil => exact absurd hb h
  | cons c t => simp

theorem not_mem_body {s : Snake} {x : Cell} (h : s.body ≠ [])
    (hh : s.headCell ≠ x) (ht : x ∉ s.body.tail) : x ∉ s.body := by
  unfold Snake.headCell at hh
  cases hb : s.body with
  | nil => simp
  | cons c t =>
      rw [hb] at hh ht
      intro hx
      rcases List.mem_cons.mp hx with rfl | h2
      · exact hh rfl
      · exact ht h2

theorem updPwe_iff (g : GameState) :
    updPwe g = true ↔ g.player.headCell = g.food := by
  simp [updPwe]

theorem updAwe_some (g : GameState) (a : Snake) (hga : g.ai_snake = some a) :
    updAwe g = (a.alive && decide (a.headCell = g.food)) := by
  unfold updAwe
  rw [hga]

theorem updAi1_some (g : GameState) (a : Snake) (hga : g.ai_snake = some a) :
    updAi1 g = if a.alive
      then some ((a.ai_move g.food g.obstacles).move (updAwe g))
      else some a := by
  unfold updAi1
  rw [hga]

theorem updAi1_none (g : GameState) (hga : g.ai_snake = none) :
    updAi1 g = none := by
  unfold updAi1
  rw [hga]

theorem ai_move_shape (s : Snake) (food : Cell) (obstacles : List Cell) :
    ∃ d, s.ai_move food obstacles = { s with direction := d } := by
  unfold Snake.ai_move
  split
  · exact ⟨s.direction, rfl⟩
  · split
    · dsimp only
      split_ifs <;> exact ⟨_, rfl⟩
    · exact ⟨s.direction, rfl⟩

theorem ai_move_body (s : Snake) (food : Cell) (obstacles : List Cell) :
    (s.ai_move food obstacles).body = s.body := by
  obtain ⟨d, hd⟩ := ai_move_shape s food obstacles
  rw [hd]

theorem ai_move_alive (s : Snake) (food : Cell) (obstacles : List Cell) :
    (s.ai_move food obstacles).alive = s.alive := by
  obtain ⟨d, hd⟩ := ai_move_shape s food obstacles
  rw [hd]

theorem ai_move_score (s : Snake) (food : Cell) (obstacles : List Cell) :
    (s.ai_move food obstacles).score = s.score := by
  obtain ⟨d, hd⟩ := ai_move_shape s food obstacles
  rw [hd]

theorem ai_move_headCell (s : Snake) (food : Cell) (obstacles : List Cell) :
    (s.ai_move food obstacles).headCell = s.headCell := by
  unfold Snake.headCell
  rw [ai_move_body]

theorem move_alive (s : Snake) (b : Bool) : (s.move b).alive = s.alive := rfl

theorem move_score (s : Snake) (b : Bool) : (s.move b).score = s.score := rfl

theorem eatPhase_body_food {g : GameState} {rng : Rng} {player2 : Snake}
    {food1 : Cell} {pu1 : Option PowerUp}
    (he : Game.eatPhase (updPwe g) (updPlayer1 g) (updAi1 g) g.food
      g.power_up g.obstacles rng = some (player2, food1, pu1)) :
    player2.body = (updPlayer1 g).body ∧
      (updPwe g = true →
        Game.spawn_food player2.body (updAi1 g) g.obstacles rng =
          some food1) ∧
      (updPwe g = false → player2 = updPlayer1 g ∧ food1 = g.food) := by
  cases hb : updPwe g with
  | true =>
      rw [hb] at he
      have h1 := (eatPhase_true he).1
      have h2 := (eatPhase_true he).2
      refine ⟨?_, fun _ => h2, fun hf => absurd hf (by simp)⟩
      rw [show player2 = { updPlayer1 g with score := (updPlayer1 g).score +
        (if ((updPlayer1 g).power_ups PowerUpType.DOUBLE_POINTS).isSome
          then 20 else 10) } from h1]
  | false =>
      rw [hb, eatPhase_false] at he
      have h3 : updPlayer1 g = player2 ∧ g.food = food1 ∧
          g.power_up = pu1 := by
        injection he with h4
        exact ⟨congrArg Prod.fst h4, congrArg (Prod.fst ∘ Prod.snd) h4,
          congrArg (Prod.snd ∘ Prod.snd) h4⟩
      exact ⟨by rw [← h3.1], fun ht => absurd ht (by simp),
        fun _ => ⟨h3.1.symm, h3.2.1.symm⟩⟩

theorem mem_of_mem_tail {α : Type} {l : List α} {x : α} (h : x ∈ l.tail) :
    x ∈ l := by
  cases l with
  | nil => simpa using h
  | cons a t => exact List.mem_cons_of_mem _ h

theorem updAwe_true {g : GameState} (h : updAwe g = true) :
    ∃ a, g.ai_snake = some a ∧ a.alive = true ∧ a.headCell = g.food := by
  unfold updAwe at h
  cases hga : g.ai_snake with
  | none => rw [hga] at h; simp at h
  | some a =>
      rw [hga] at h
      simp only [Bool.and_eq_true, decide_eq_true_eq] at h
      exact ⟨a, rfl, h.1, h.2⟩

/-- C2 counterexample: starting one cell left of the food, one tick moves
the player's head onto the food cell without eating it (eating is decided
before moving), so after the tick the food coincides with a cell of the
living player's body. -/
theorem claim_C2_counterexample :
    (Game.update gC2 rngC2).map
        (fun res => (decide (res.1.food ∈ res.1.player.body),
          res.1.player.alive, res.2)) = some (true, true, true) := by
  decide

/-- C2 (amended): after a tick, the food is never an obstacle cell and
never lies on a living snake's body other than possibly that snake's head
cell (the head steps onto the food one tick before eating it).  Stated as
preservation: the property holds after the tick whenever it held before. -/
theorem claim_C2_amended (g : GameState) (rng : Rng)
    (hpb : g.player.body ≠ [])
    (hfo : g.food ∉ g.obstacles)
    (hft : g.food ∉ g.player.body.tail)
    (hai : ∀ a, g.ai_snake = some a → a.body ≠ [] ∧
      (a.alive = true → g.food ∉ a.body.tail)) :
    (Game.update g rng).all (fun res => foodInvB res.1) = true := by
  cases hu : Game.update g rng with
  | none => rfl
  | some res =>
      show foodInvB res.1 = true
      obtain ⟨player2, food1, pu1, ai2, food2, he, ha, hres⟩ := update_inv hu
      obtain ⟨hp2body, hspawnT, hfalseE⟩ := eatPhase_body_food he
      have KEY : food2 ∉ g.obstacles ∧ food2 ∉ player2.body.tail ∧
          (∀ a2, ai2 = some a2 → a2.alive = true →
            food2 ∉ a2.body.tail) := by
        cases hpw : updPwe g with
        | true =>
            obtain ⟨hnp, hnai, hno⟩ := spawn_food_ok (hspawnT hpw)
            cases haw : updAwe g with
            | false =>
                rw [haw, aiEatPhase_false] at ha
                have h2 : updAi1 g = ai2 ∧ food1 = food2 := by
                  injection ha with h3
                  exact ⟨congrArg Prod.fst h3, congrArg Prod.snd h3⟩
                refine ⟨by rw [← h2.2]; exact hno, ?_, ?_⟩
                · rw [← h2.2]
                  intro hx
                  exact hnp (mem_of_mem_tail hx)
                · intro a2 ha2 _
                  rw [← h2.1] at ha2
                  rw [← h2.2]
                  intro hx
                  exact hnai a2 ha2 (mem_of_mem_tail hx)
            | true =>
                obtain ⟨a, hga, hal, _⟩ := updAwe_true haw
                have hai1 : updAi1 g = some
                    ((a.ai_move g.food g.obstacles).move (updAwe g)) := by
                  rw [updAi1_some g a hga, if_pos hal]
                rw [haw, hpw, hai1] at ha
                obtain ⟨hai2, hcase⟩ := aiEatPhase_true ha
                dsimp only at hai2
                rcases hcase with ⟨_, hff⟩ | ⟨habs, _⟩
                · dsimp only at hff
                  refine ⟨by rw [hff]; exact hno, ?_, ?_⟩
                  · rw [hff]
                    intro hx
                    exact hnp (mem_of_mem_tail hx)
                  · intro a2 ha2 _
                    rw [hai2] at ha2
                    have ha2eq : ({ (a.ai_move g.food g.obstacles).move
                        (updAwe g) with score := ((a.ai_move g.food
                          g.obstacles).move (updAwe g)).score + 10 } :
                            Snake) = a2 := by
                      injection ha2
                    have hbody2 : a2.body = ((a.ai_move g.food
                        g.obstacles).move (updAwe g)).body := by
                      rw [← ha2eq]
                    have hnf : food1 ∉ ((a.ai_move g.food
                        g.obstacles).move (updAwe g)).body :=
                      hnai _ hai1
                    rw [← hff] at hnf
                    rw [hbody2]
                    intro hx
                    exact hnf (mem_of_mem_tail hx)
                · exact absurd habs (by simp)
        | false =>
            obtain ⟨hp2eq, hf1⟩ := hfalseE hpw
            have hphead : g.player.headCell ≠ g.food := by
              intro hx
              rw [(updPwe_iff g).mpr hx] at hpw
              exact absurd hpw (by simp)
            have hfnp : g.food ∉ g.player.body :=
              not_mem_body hpb (fun hx => hphead hx) hft
            cases haw : updAwe g with
            | false =>
                rw [haw, aiEatPhase_false] at ha
                have h2 : updAi1 g = ai2 ∧ food1 = food2 := by
                  injection ha with h3
                  exact ⟨congrArg Prod.fst h3, congrArg Prod.snd h3⟩
                have hff : food2 = g.food := by rw [← h2.2, hf1]
                refine ⟨hff ▸ hfo, ?_, ?_⟩
                · rw [hff, hp2eq]
                  intro hx
                  exact hfnp (move_tail_subset g.player (updPwe g) hpb _ hx)
                · intro a2 ha2 hal2
                  rw [← h2.1] at ha2
                  cases hga : g.ai_snake with
                  | none => rw [updAi1_none g hga] at ha2; exact absurd ha2 (by simp)
                  | some a =>
                      obtain ⟨hab, hat⟩ := hai a hga
                      rw [updAi1_some g a hga] at ha2
                      cases hala : a.alive with
                      | false =>
                          rw [if_neg (by simp [hala])] at ha2
                          have : a = a2 := by injection ha2
                          rw [← this] at hal2
                          rw [hala] at hal2
                          exact absurd hal2 (by simp)
                      | true =>
                          rw [if_pos hala] at ha2
                          have he2 : (a.ai_move g.food g.obstacles).move
                              (updAwe g) = a2 := by injection ha2
                          have hh2 : a.headCell ≠ g.food := by
                            intro hx
                            rw [updAwe_some g a hga, hala] at haw
                            simp [hx] at haw
                          have hfa : g.food ∉ a.body :=
                            not_mem_body hab (fun hx => hh2 hx) (hat hala)
                          rw [hff, ← he2]
                          intro hx
                          have hx2 := move_tail_subset
                            (a.ai_move g.food g.obstacles) (updAwe g)
                            (by rw [ai_move_body]; exact hab) _ hx
                          rw [ai_move_body] at hx2
                          exact hfa hx2
            | true =>
                obtain ⟨a, hga, hal, _⟩ := updAwe_true haw
                have hai1 : updAi1 g = some
                    ((a.ai_move g.food g.obstacles).move (updAwe g)) := by
                  rw [updAi1_some g a hga, if_pos hal]
                rw [haw, hpw, hai1] at ha
                obtain ⟨hai2, hcase⟩ := aiEatPhase_true ha
                dsimp only at hai2
                rcases hcase with ⟨habs, _⟩ | ⟨_, hsp⟩
                · exact absurd habs (by simp)
                · dsimp only at hsp
                  obtain ⟨hnp, hnai, hno⟩ := spawn_food_ok hsp
                  refine ⟨hno, ?_, ?_⟩
                  · intro hx
                    exact hnp (mem_of_mem_tail hx)
                  · intro a2 ha2 _
                    rw [hai2] at ha2
                    have ha2eq : ({ (a.ai_move g.food g.obstacles).move
                        (updAwe g) with score := ((a.ai_move g.food
                          g.obstacles).move (updAwe g)).score + 10 } :
                            Snake) = a2 := by
                      injection ha2
                    have hnf := hnai _ rfl
                    rw [← ha2eq]
                    intro hx
                    exact hnf (mem_of_mem_tail hx)
      have hfood : res.1.food = food2 := by
        rw [hres, collisionPhase_food]
      have hobs : res.1.obstacles = g.obstacles := by
        rw [hres, collisionPhase_obstacles]
      have hpbody : res.1.player.body = player2.body := by
        rw [hres, collisionPhase_player_body, pickupPhase_body]
      unfold foodInvB
      rw [hfood, hobs, hpbody]
      simp only [Bool.and_eq_true, Bool.or_eq_true, Bool.not_eq_true',
        decide_eq_false_iff_not]
      refine ⟨⟨KEY.1, Or.inr KEY.2.1⟩, ?_⟩
      cases han : res.1.ai_snake with
      | none => rfl
      | some a' =>
          show (!a'.alive || !(decide (food2 ∈ a'.body.tail))) = true
          cases hal2 : a'.alive with
          | false => rfl
          | true =>
              rw [hres] at han
              obtain ⟨a2, ha2eq, hbody, _, halimp⟩ :=
                collisionPhase_ai _ _ _ _ _ a' han
              have hnt := KEY.2.2 a2 ha2eq (halimp hal2)
              rw [← hbody] at hnt
              simp [hnt]

/-- C2 witness: the amended invariant holds across the counterexample's own
tick, and that tick succeeds. -/
theorem claim_C2_witness :
    (Game.update gC2 rngC2).all (fun res => foodInvB res.1) = true ∧
      (Game.update gC2 rngC2).isSome = true :=
  ⟨claim_C2_amended gC2 rngC2 (by decide) (by decide) (by decide)
    (fun a ha => absurd ha (by simp [gC2])), by decide⟩

theorem collisionPhase_ai_some (player3 a2 : Snake) (food2 : Cell)
    (pu2 : Option PowerUp) (obstacles : List Cell) :
    ∃ a', (Game.collisionPhase player3 (some a2) food2 pu2
        obstacles).1.ai_snake = some a' ∧
      a'.score = a2.score ∧ a'.body = a2.body := by
  unfold Game.collisionPhase
  by_cases hc : player3.check_collision obstacles = true
  · rw [if_pos hc]
    exact ⟨a2, rfl, rfl, rfl⟩
  · rw [if_neg hc]
    dsimp only
    by_cases hk : (a2.alive && a2.check_collision obstacles) = true
    · rw [if_pos hk]
      exact ⟨_, rfl, rfl, rfl⟩
    · rw [if_neg hk]
      exact ⟨a2, rfl, rfl, rfl⟩

/-- C3: when both the player's head and the living AI snake's head sit on
the food before a tick, the tick awards the player 10 points (20 under
DOUBLE_POINTS), awards the AI 10 points, and the food is respawned exactly
once — it equals the tick's single food draw, on a cell distinct from the
previous food cell, outside both snakes' bodies and outside the obstacle
set. -/
theorem claim_C3 (g : GameState) (rng : Rng) (a : Snake)
    (hpb : g.player.body ≠ []) (hab : a.body ≠ [])
    (hga : g.ai_snake = some a) (hal : a.alive = true)
    (hph : g.player.headCell = g.food) (hah : a.headCell = g.food)
    (hs : (Game.update g rng).isSome = true) :
    (Game.update g rng).map (fun res => res.1.player.score) =
      some (g.player.score +
        (if (g.player.power_ups PowerUpType.DOUBLE_POINTS).isSome
          then 20 else 10)) ∧
    (Game.update g rng).map (fun res => res.1.ai_snake.map Snake.score) =
      some (some (a.score + 10)) ∧
    (Game.update g rng).map (fun res =>
      (decide (res.1.food = g.food), decide (res.1.food ∈ res.1.player.body),
        res.1.ai_snake.map (fun a2 => decide (res.1.food ∈ a2.body)),
        decide (res.1.food ∈ res.1.obstacles))) =
      some (false, false, some false, false) ∧
    (Game.update g rng).map (fun res => res.1.food) =
      Game.spawn_food (g.player.move true).body
        (some ((a.ai_move g.food g.obstacles).move true)) g.obstacles
        rng := by
  cases hu : Game.update g rng with
  | none => rw [hu] at hs; exact absurd hs (by simp)
  | some res =>
      obtain ⟨player2, food1, pu1, ai2, food2, he, ha, hres⟩ := update_inv hu
      have hpw : updPwe g = true := (updPwe_iff g).mpr hph
      have haw : updAwe g = true := by
        rw [updAwe_some g a hga, hal]
        simp [hah]
      have hai1 : updAi1 g = some
          ((a.ai_move g.food g.obstacles).move true) := by
        rw [updAi1_some g a hga, if_pos hal, haw]
      rw [hpw] at he
      have hp2 := (eatPhase_true he).1
      have hsp := (eatPhase_true he).2
      dsimp only at hp2 hsp
      have hplayer1 : updPlayer1 g = g.player.move true := by
        unfold updPlayer1
        rw [hpw]
      have hscore2 : player2.score = g.player.score +
          (if (g.player.power_ups PowerUpType.DOUBLE_POINTS).isSome
            then 20 else 10) := by
        rw [hp2, hplayer1]
        rfl
      have hbody2 : player2.body = (g.player.move true).body := by
        rw [hp2, hplayer1]
      rw [haw, hpw, hai1] at ha
      obtain ⟨hai2, hcase⟩ := aiEatPhase_true ha
      dsimp only at hai2
      rcases hcase with ⟨_, hff⟩ | ⟨habs, _⟩
      swap
      · exact absurd habs (by simp)
      dsimp only at hff
      rw [hp2] at hsp
      obtain ⟨hnp, hnai, hno⟩ := spawn_food_ok hsp
      rw [← hp2] at hsp hnp
      have hfoodmem : g.food ∈ player2.body := by
        rw [hbody2, move_body_true]
        exact List.mem_cons_of_mem _ (hph ▸ headCell_mem hpb)
      have hfood1_ne : food1 ≠ g.food := by
        intro hx
        apply hnp
        rw [hx]
        exact hfoodmem
      have hnaimoved : food1 ∉
          ((a.ai_move g.food g.obstacles).move true).body :=
        hnai _ hai1
      obtain ⟨a', ha'eq, ha'score, ha'body⟩ : ∃ a',
          res.1.ai_snake = some a' ∧
            a'.score = ({ (a.ai_move g.food g.obstacles).move true with
              score := ((a.ai_move g.food g.obstacles).move true).score +
                10 } : Snake).score ∧
            a'.body = ({ (a.ai_move g.food g.obstacles).move true with
              score := ((a.ai_move g.food g.obstacles).move true).score +
                10 } : Snake).body := by
        rw [hres, hai2]
        exact collisionPhase_ai_some _ _ _ _ _
      have hrfood : res.1.food = food1 := by
        rw [hres, collisionPhase_food, hff]
      have hrpbody : res.1.player.body = player2.body := by
        rw [hres, collisionPhase_player_body, pickupPhase_body]
      have hrobs : res.1.obstacles = g.obstacles := by
        rw [hres, collisionPhase_obstacles]
      refine ⟨?_, ?_, ?_, ?_⟩
      · show some res.1.player.score = _
        rw [hres, collisionPhase_player_score, pickupPhase_score, hscore2]
      · show some (res.1.ai_snake.map Snake.score) = _
        rw [ha'eq]
        simp only [Option.map_some']
        rw [ha'score]
        dsimp only
        rw [move_score, ai_move_score]
      · show some (decide (res.1.food = g.food),
            decide (res.1.food ∈ res.1.player.body),
            res.1.ai_snake.map (fun a2 => decide (res.1.food ∈ a2.body)),
            decide (res.1.food ∈ res.1.obstacles)) = _
        rw [hrfood, hrpbody, hrobs, ha'eq]
        simp only [Option.map_some']
        have c1 : decide (food1 = g.food) = false :=
          decide_eq_false hfood1_ne
        have c2 : decide (food1 ∈ player2.body) = false :=
          decide_eq_false hnp
        have c4 : decide (food1 ∈ g.obstacles) = false :=
          decide_eq_false hno
        have c3 : decide (food1 ∈ a'.body) = false := by
          apply decide_eq_false
          rw [ha'body]
          exact hnaimoved
        rw [c1, c2, c3, c4]
      · show some res.1.food = _
        rw [hrfood, ← hbody2, ← hai1]
        exact hsp.symm

theorem claim_C3_witness :
    (gC3.player.body ≠ [] ∧
      (mkSnake [(5, 5)] Direction.RIGHT true).body ≠ [] ∧
      gC3.ai_snake = some (mkSnake [(5, 5)] Direction.RIGHT true) ∧
      (mkSnake [(5, 5)] Direction.RIGHT true).alive = true ∧
      gC3.player.headCell = gC3.food ∧
      (mkSnake [(5, 5)] Direction.RIGHT true).headCell = gC3.food ∧
      (Game.update gC3 rngC2).isSome = true) ∧
    ((Game.update gC3 rngC2).map (fun res => res.1.player.score) =
      some (gC3.player.score +
        (if (gC3.player.power_ups PowerUpType.DOUBLE_POINTS).isSome
          then 20 else 10)) ∧
    (Game.update gC3 rngC2).map (fun res => res.1.ai_snake.map Snake.score) =
      some (some ((mkSnake [(5, 5)] Direction.RIGHT true).score + 10)) ∧
    (Game.update gC3 rngC2).map (fun res =>
      (decide (res.1.food = gC3.food),
        decide (res.1.food ∈ res.1.player.body),
        res.1.ai_snake.map (fun a2 => decide (res.1.food ∈ a2.body)),
        decide (res.1.food ∈ res.1.obstacles))) =
      some (false, false, some false, false) ∧
    (Game.update gC3 rngC2).map (fun res => res.1.food) =
      Game.spawn_food (gC3.player.move true).body
        (some (((mkSnake [(5, 5)] Direction.RIGHT true).ai_move gC3.food
          gC3.obstacles).move true)) gC3.obstacles rngC2) :=
  ⟨⟨by decide, by decide, rfl, rfl, rfl, rfl, by decide⟩,
    claim_C3 gC3 rngC2 (mkSnake [(5, 5)] Direction.RIGHT true)
      (by decide) (by decide) rfl rfl rfl rfl (by decide)⟩

/-- C8 counterexample: at `gC8` the power-up draw (3,3) is accepted even
though the AI snake moves onto (3,3) this very tick — the spawned power-up
sits on the AI snake's body, because `spawn_power_up` never consults the AI
snake.  The recorded post-tick state has the power-up at (3,3) and the AI
body containing (3,3). -/
theorem claim_C8_counterexample :
    (Game.update gC8 rngC8).map (fun res =>
      (res.1.power_up.map (fun pu => (pu.x, pu.y)),
        res.1.ai_snake.map (fun a2 => decide ((3, 3) ∈ a2.body)))) =
      some (some (3, 3), some true) := by decide

/-- C8 amended: whenever `spawn_power_up` places a power-up (under the 30%
roll), its cell avoids the player snake's body, the current food cell and
every obstacle — but not the AI snake's body, which the source never
checks. -/
theorem claim_C8_amended (playerBody : List Cell) (food : Cell)
    (obstacles : List Cell) (rng : Rng) (old : Option PowerUp)
    (pu : PowerUp) (hch : rng.puChance = true)
    (h : Game.spawn_power_up playerBody food obstacles rng old =
      some (some pu)) :
    (pu.x, pu.y) ∉ playerBody ∧ (pu.x, pu.y) ≠ food ∧
      (pu.x, pu.y) ∉ obstacles :=
  spawn_power_up_ok hch h

theorem claim_C8_witness :
    (rngC8.puChance = true ∧
      Game.spawn_power_up [(4, 2), (3, 2)] (30, 20) [] rngC8 none =
        some (some (PowerUp.mk 3 3 PowerUpType.INVINCIBILITY))) ∧
    (((3 : Int), (3 : Int)) ∉ [((4 : Int), (2 : Int)), (3, 2)] ∧
      ((3 : Int), (3 : Int)) ≠ ((30 : Int), (20 : Int)) ∧
      ((3 : Int), (3 : Int)) ∉ ([] : List Cell)) :=
  ⟨⟨rfl, by decide⟩,
    claim_C8_amended [(4, 2), (3, 2)] (30, 20) [] rngC8 none
      (PowerUp.mk 3 3 PowerUpType.INVINCIBILITY) rfl (by decide)⟩

theorem move_power_ups (s : Snake) (b : Bool) :
    (s.move b).power_ups = s.power_ups := rfl

theorem move_power_ups_congr (s : Snake) (pu2 : PowerUpType → Option Nat)
    (b : Bool) :
    (({ s with power_ups := pu2 } : Snake).move b) =
      { s.move b with power_ups := pu2 } := rfl

theorem eatPhase_congr (pwe : Bool) (p : Snake)
    (pu2 : PowerUpType → Option Nat) (ai1 : Option Snake) (food : Cell)
    (oldPu : Option PowerUp) (obstacles : List Cell) (rng : Rng)
    (hdp : (pu2 PowerUpType.DOUBLE_POINTS).isSome =
      (p.power_ups PowerUpType.DOUBLE_POINTS).isSome) :
    Game.eatPhase pwe { p with power_ups := pu2 } ai1 food oldPu obstacles
        rng =
      (Game.eatPhase pwe p ai1 food oldPu obstacles rng).map
        (fun t => ({ t.1 with power_ups := pu2 }, t.2.1, t.2.2)) := by
  unfold Game.eatPhase
  cases pwe
  · rfl
  · dsimp only
    rw [hdp]
    cases Game.spawn_food
        (p.body) ai1 obstacles rng with
    | none => rfl
    | some f =>
        dsimp only
        by_cases hr : rng.puRoll = true
        · rw [if_pos hr, if_pos hr]
          cases Game.spawn_power_up (p.body) f obstacles rng oldPu with
          | none => rfl
          | some pu => rfl
        · rw [if_neg hr, if_neg hr]
          rfl

theorem aiEatPhase_congr (awe pwe : Bool) (p : Snake)
    (pu2 : PowerUpType → Option Nat) (ai1 : Option Snake) (food1 : Cell)
    (obstacles : List Cell) (rng : Rng) :
    Game.aiEatPhase awe pwe { p with power_ups := pu2 } ai1 food1 obstacles
        rng =
      Game.aiEatPhase awe pwe p ai1 food1 obstacles rng := rfl

theorem pickupPhase_congr (p : Snake) (pu2 : PowerUpType → Option Nat)
    (pu1 : Option PowerUp) (now : Nat) :
    ∃ f, Game.pickupPhase { p with power_ups := pu2 } pu1 now =
      ({ (Game.pickupPhase p pu1 now).1 with power_ups := f },
        (Game.pickupPhase p pu1 now).2) := by
  unfold Game.pickupPhase
  cases pu1 with
  | none => exact ⟨pu2, rfl⟩
  | some pu =>
      dsimp only
      have hhc : ({ p with power_ups := pu2 } : Snake).headCell =
          p.headCell := rfl
      rw [hhc]
      by_cases hh : p.headCell = (pu.x, pu.y)
      · rw [if_pos hh, if_pos hh]
        exact ⟨fun k => if k = pu.type then some now else pu2 k, rfl⟩
      · rw [if_neg hh, if_neg hh]
        exact ⟨pu2, rfl⟩

theorem collisionPhase_congr (p : Snake) (f : PowerUpType → Option Nat)
    (ai2 : Option Snake) (food2 : Cell) (pu : Option PowerUp)
    (obstacles : List Cell) :
    (stripPU (Game.collisionPhase { p with power_ups := f } ai2 food2 pu
        obstacles).1,
      (Game.collisionPhase { p with power_ups := f } ai2 food2 pu
        obstacles).2) =
      (stripPU (Game.collisionPhase p ai2 food2 pu obstacles).1,
        (Game.collisionPhase p ai2 food2 pu obstacles).2) := by
  unfold Game.collisionPhase
  have hcc : ({ p with power_ups := f } : Snake).check_collision obstacles =
      p.check_collision obstacles := rfl
  rw [hcc]
  by_cases hc : p.check_collision obstacles = true
  · rw [if_pos hc, if_pos hc]
    rfl
  · rw [if_neg hc, if_neg hc]
    cases ai2 <;> rfl

/-- C10: only the DOUBLE_POINTS power-up influences the simulation.  Two
ticks from states whose players differ only in their power-up mapping, with
DOUBLE_POINTS present in both or absent in both, produce the same post-tick
state up to the player's power-up mapping and the same return value; and
`check_collision` never consults the power-up mapping, so INVINCIBILITY
does not prevent death. -/
theorem claim_C10 (g : GameState) (rng : Rng)
    (pu2 : PowerUpType → Option Nat)
    (hdp : (pu2 PowerUpType.DOUBLE_POINTS).isSome =
      (g.player.power_ups PowerUpType.DOUBLE_POINTS).isSome) :
    (Game.update { g with player := { g.player with power_ups := pu2 } }
        rng).map (fun res => (stripPU res.1, res.2)) =
      (Game.update g rng).map (fun res => (stripPU res.1, res.2)) ∧
    ({ g.player with power_ups := pu2 } : Snake).check_collision
        g.obstacles = g.player.check_collision g.obstacles := by
  refine ⟨?_, rfl⟩
  have hdp1 : (pu2 PowerUpType.DOUBLE_POINTS).isSome =
      ((updPlayer1 g).power_ups PowerUpType.DOUBLE_POINTS).isSome := hdp
  unfold Game.update
  have he2 : Game.eatPhase
      (updPwe { g with player := { g.player with power_ups := pu2 } })
      (updPlayer1 { g with player := { g.player with power_ups := pu2 } })
      (updAi1 { g with player := { g.player with power_ups := pu2 } })
      ({ g with player := { g.player with power_ups := pu2 } }
        : GameState).food
      ({ g with player := { g.player with power_ups := pu2 } }
        : GameState).power_up
      ({ g with player := { g.player with power_ups := pu2 } }
        : GameState).obstacles rng =
      (Game.eatPhase (updPwe g) (updPlayer1 g) (updAi1 g) g.food g.power_up
        g.obstacles rng).map
        (fun t => ({ t.1 with power_ups := pu2 }, t.2.1, t.2.2)) := by
    show Game.eatPhase (updPwe g) ({ updPlayer1 g with power_ups := pu2 })
      (updAi1 g) g.food g.power_up g.obstacles rng = _
    exact eatPhase_congr (updPwe g) (updPlayer1 g) pu2 (updAi1 g) g.food
      g.power_up g.obstacles rng hdp1
  rw [he2]
  cases he : Game.eatPhase (updPwe g) (updPlayer1 g) (updAi1 g) g.food
      g.power_up g.obstacles rng with
  | none => rfl
  | some trip =>
      obtain ⟨player2, food1, pu1⟩ := trip
      dsimp only [Option.map_some']
      have ha2 : Game.aiEatPhase
          (updAwe { g with player := { g.player with power_ups := pu2 } })
          (updPwe { g with player := { g.player with power_ups := pu2 } })
          ({ player2 with power_ups := pu2 })
          (updAi1 { g with player := { g.player with power_ups := pu2 } })
          food1
          ({ g with player := { g.player with power_ups := pu2 } }
            : GameState).obstacles rng =
          Game.aiEatPhase (updAwe g) (updPwe g) player2 (updAi1 g) food1
            g.obstacles rng :=
        aiEatPhase_congr (updAwe g) (updPwe g) player2 pu2 (updAi1 g) food1
          g.obstacles rng
      rw [ha2]
      cases ha : Game.aiEatPhase (updAwe g) (updPwe g) player2 (updAi1 g)
          food1 g.obstacles rng with
      | none => rfl
      | some pair =>
          obtain ⟨ai2, food2⟩ := pair
          dsimp only
          obtain ⟨f, hpk⟩ := pickupPhase_congr player2 pu2 pu1 rng.now
          rw [hpk]
          dsimp only [Option.map_some']
          have hcol := collisionPhase_congr
            (Game.pickupPhase player2 pu1 rng.now).1 f ai2 food2
            (Game.pickupPhase player2 pu1 rng.now).2 g.obstacles
          exact congrArg some hcol

theorem claim_C10_witness :
    ((puInv PowerUpType.DOUBLE_POINTS).isSome =
      (gC10.player.power_ups PowerUpType.DOUBLE_POINTS).isSome) ∧
    ((Game.update { gC10 with player :=
        { gC10.player with power_ups := puInv } } rngC2).map
        (fun res => (stripPU res.1, res.2)) =
      (Game.update gC10 rngC2).map (fun res => (stripPU res.1, res.2)) ∧
    ({ gC10.player with power_ups := puInv } : Snake).check_collision
        gC10.obstacles = gC10.player.check_collision gC10.obstacles) ∧
    (Game.update { gC10 with player :=
        { gC10.player with power_ups := puInv } } rngC2).map
        (fun res => (res.1.player.alive, res.2)) = some (false, false) :=
  ⟨by decide, claim_C10 gC10 rngC2 puInv (by decide), by decide⟩
